import Mathlib

/-!
Verification development for the agentic-code-indexer repository.

Shallow embedding of the search-and-ingestion pipeline:
file change detection (file_traversal.py), graph ingestion
(graph_ingestion.py), hierarchical summarization
(summarization_orchestrator.py, llm_integration.py), vector search
(vector_search.py), hybrid search (hybrid_search.py) and graph traversal
(graph_traversal.py).

Python strings are modelled by Lean String values; character-level
operations (lower-casing, splitting, substring tests) are implemented on
the underlying character list so that they evaluate by kernel reduction.
All string data in scope is ASCII, matching the identifiers and keyword
lexicons of the source. Python floats are modelled as rationals.
-/

attribute [local semireducible] Rat.ofScientific Rat.mul Rat.add Rat.sub
  Rat.inv

/-- Python str.lower, ASCII. -/
def pyLower (s : String) : String :=
  String.mk (s.data.map Char.toLower)

/-- Python str.strip with no arguments: drop leading and trailing whitespace. -/
def pyStrip (s : String) : String :=
  String.mk (((s.data.dropWhile Char.isWhitespace).reverse.dropWhile
    Char.isWhitespace).reverse)

/-- Python s[:n] character slice. -/
def pySlice (n : Nat) (s : String) : String :=
  String.mk (s.data.take n)

/-- Accumulator-based scanner for maximal character runs: acc holds the
current run reversed. -/
def charRunsAux (keep : Char → Bool) : List Char → List Char → List (List Char)
  | [], acc => if acc.isEmpty then [] else [acc.reverse]
  | c :: rest, acc =>
    if keep c then charRunsAux keep rest (c :: acc)
    else if acc.isEmpty then charRunsAux keep rest []
    else acc.reverse :: charRunsAux keep rest []

/-- Maximal runs of characters satisfying keep, in order; separators dropped.
With keep the negation of isWhitespace this is Python str.split with no
arguments. -/
def charRuns (keep : Char → Bool) (l : List Char) : List (List Char) :=
  charRunsAux keep l []

/-- Python str.split with no arguments, as strings. -/
def pySplitWs (s : String) : List String :=
  (charRuns (fun c => !c.isWhitespace) s.data).map String.mk

/-- Python substring test: a in b. -/
def pyContains (b a : String) : Bool :=
  decide (a.data <:+: b.data)

/-- Python truthiness of a string. -/
def pyTruthy (s : String) : Bool :=
  s ≠ ""

/-! ## C1 — summarization failure handling

Model of llm_integration.LLMSummarizer.generate_summary and the per-node
update step of summarization_orchestrator.process_level (lines 276-284).
The outcome of the external LLM call is an explicit parameter. -/

/-- Outcome of the external LLM request made inside generate_summary:
either the response text with its token usage, or a raised exception
message (caught by the except branch). -/
inductive LLMOutcome where
  | ok (text : String) (tokens : Nat)
  | err (message : String)
deriving DecidableEq

/-- llm_integration.SummaryResult. -/
structure SummaryResult where
  original_text : String
  summary : String
  model_name : String
  token_count : Nat
deriving DecidableEq

/-- llm_integration.LLMSummarizer.generate_summary (lines 178-209): on a
raised exception it returns a fallback SummaryResult whose summary is the
placeholder string Code node_type - summary generation failed. -/
def generate_summary (model text node_type : String)
    (outcome : LLMOutcome) : SummaryResult :=
  match outcome with
  | .ok s tok =>
      { original_text := text, summary := s, model_name := model,
        token_count := tok }
  | .err _ =>
      { original_text := text,
        summary := "Code " ++ node_type ++ " - summary generation failed",
        model_name := model, token_count := 0 }

/-- The summary-relevant state of a graph node: its generated_summary and
summary_status properties (absent properties are none). -/
structure SummNodeState where
  generated_summary : Option String
  summary_status : Option String
deriving DecidableEq

/-- llm_integration.LLMEmbeddingIntegration.update_node_summary: SET
n.generated_summary = summary (the database write is assumed to succeed). -/
def update_node_summary (n : SummNodeState) (s : String) : SummNodeState :=
  { n with generated_summary := some s }

/-- summarization_orchestrator._mark_node_completed: SET
n.summary_status = COMPLETED. -/
def mark_node_completed (n : SummNodeState) : SummNodeState :=
  { n with summary_status := some "COMPLETED" }

/-- summarization_orchestrator._mark_node_processing: SET
n.summary_status = PROCESSING. -/
def mark_node_processing (n : SummNodeState) : SummNodeState :=
  { n with summary_status := some "PROCESSING" }

/-- The per-node body of summarization_orchestrator.process_level
(lines 276-284): write the summary produced by generate_summary via
update_node_summary, then call _mark_node_completed — on the success
branch and, despite the comment Reset processing status on failure, on
the failure branch as well. -/
def process_level_node (model : String) (n : SummNodeState)
    (text node_type : String) (outcome : LLMOutcome) : SummNodeState :=
  mark_node_completed
    (update_node_summary n (generate_summary model text node_type outcome).summary)

/-! ## C2 — deletion cascade

Model of graph_ingestion.delete_file_subgraph (lines 273-298). The Cypher
pattern OPTIONAL MATCH (f)-[*]-(n) is an undirected variable-length match:
the collected related nodes are every node connected to f by a path of
length at least one, in any edge direction. For a file whose neighbourhood
is acyclic this is the connected component of f minus f itself, which is
how relatedIds is computed below (a cycle through f would additionally put
f itself in the Cypher collection, inflating only the returned count). -/

/-- A stored graph node, as far as deletion and call-hierarchy queries
observe it. -/
structure GNode where
  id : String
  label : String
  name : String
  path : Option String
deriving DecidableEq

/-- A stored relationship. -/
structure GEdge where
  src : String
  tgt : String
  typ : String
deriving DecidableEq

/-- A stored property graph. -/
structure Graph where
  nodes : List GNode
  edges : List GEdge
deriving DecidableEq

/-- Undirected adjacency between two node ids. -/
def undirectedAdj (g : Graph) (a b : String) : Bool :=
  g.edges.any (fun e => (e.src = a && e.tgt = b) || (e.src = b && e.tgt = a))

/-- One closure step: add every node id adjacent to the current set. -/
def expandUndirected (g : Graph) (s : List String) : List String :=
  s ++ (g.nodes.map (fun n => n.id)).filter
    (fun b => !s.contains b && s.any (fun a => undirectedAdj g a b))

/-- Iterated closure with explicit fuel. -/
def closureAux (g : Graph) (s : List String) : Nat → List String
  | 0 => s
  | fuel + 1 => closureAux g (expandUndirected g s) fuel

/-- Ids of nodes connected to the start set by an undirected path (the
start set included). Fuel g.nodes.length suffices since each useful step
adds a node. -/
def undirectedComponent (g : Graph) (start : String) : List String :=
  closureAux g [start] g.nodes.length

/-- Directed adjacency (outbound edge) between two node ids. -/
def outboundAdj (g : Graph) (a b : String) : Bool :=
  g.edges.any (fun e => e.src = a && e.tgt = b)

/-- One closure step along outbound edges. -/
def expandOutbound (g : Graph) (s : List String) : List String :=
  s ++ (g.nodes.map (fun n => n.id)).filter
    (fun b => !s.contains b && s.any (fun a => outboundAdj g a b))

/-- Iterated outbound closure with explicit fuel. -/
def outboundClosureAux (g : Graph) (s : List String) : Nat → List String
  | 0 => s
  | fuel + 1 => outboundClosureAux g (expandOutbound g s) fuel

/-- Ids of nodes reachable from start via outbound edges (start included).
This is the reachability notion of the specification, not of the code. -/
def outboundReachSet (g : Graph) (start : String) : List String :=
  outboundClosureAux g [start] g.nodes.length

/-- graph_ingestion.delete_file_subgraph (lines 273-298): match the File
node with the given path, collect every node reachable from it through
the undirected variable-length pattern (f)-[*]-(n), DETACH DELETE all of
them, and return count(f) + size(related_nodes). With no matching File
node the query yields no row and the method returns 0. -/
def delete_file_subgraph (g : Graph) (file_path : String) : Graph × Nat :=
  match g.nodes.find? (fun n => n.label = "File" && n.path = some file_path) with
  | none => (g, 0)
  | some f =>
    let relatedIds := (undirectedComponent g f.id).filter (fun i => i ≠ f.id)
    let deleted := f.id :: relatedIds
    ({ nodes := g.nodes.filter (fun n => !deleted.contains n.id),
       edges := g.edges.filter
         (fun e => !deleted.contains e.src && !deleted.contains e.tgt) },
     1 + relatedIds.length)

/-- Claim C1. The claim states that when summary generation for a claimed
node fails, process_level clears the summary_status lease and never writes
a placeholder to generated_summary. The code does the opposite: at a node
whose LLM call raised an exception, the per-node step of process_level
stores the non-empty placeholder text in generated_summary and sets
summary_status to COMPLETED instead of clearing it, as this evaluation of
the model at such a failing node shows. -/
theorem c1_failure_marks_completed_and_writes_placeholder :
    (process_level_node "claude-3-sonnet-20240229"
      { generated_summary := none, summary_status := some "PROCESSING" }
      "def charge: ..." "class" (LLMOutcome.err "timeout")).summary_status =
        some "COMPLETED" ∧
    (process_level_node "claude-3-sonnet-20240229"
      { generated_summary := none, summary_status := some "PROCESSING" }
      "def charge: ..." "class" (LLMOutcome.err "timeout")).generated_summary =
        some "Code class - summary generation failed" ∧
    (process_level_node "claude-3-sonnet-20240229"
      { generated_summary := none, summary_status := some "PROCESSING" }
      "def charge: ..." "class"
        (LLMOutcome.err "timeout")).generated_summary ≠ some "" := by
  decide

/-- The concrete counterexample store for claim C2: a Directory node d
with CONTAINS edges to two File nodes f (path a.py) and g (path b.py).
The File node f has no outbound edges at all. -/
def c2Graph : Graph :=
  { nodes :=
      [ { id := "d", label := "Directory", name := "w", path := some "w" },
        { id := "f", label := "File", name := "a.py", path := some "a.py" },
        { id := "g", label := "File", name := "b.py", path := some "b.py" } ],
    edges :=
      [ { src := "d", tgt := "f", typ := "CONTAINS" },
        { src := "d", tgt := "g", typ := "CONTAINS" } ] }

/-- Claim C2. The claim states that delete_file_subgraph removes the File
node plus exactly the nodes reachable from it via outbound edges, leaving
every other node unchanged. In c2Graph the File node f has no outbound
edge, so the claim predicts that only f is removed and the count is 1;
but the undirected match in the code deletes the whole connected
component: the parent Directory d and the sibling File g (path b.py) are
deleted as well and the count is 3, although g is not outbound-reachable
from f. -/
theorem c2_cascade_deletes_non_outbound_nodes :
    outboundReachSet c2Graph "f" = ["f"] ∧
    (delete_file_subgraph c2Graph "a.py").2 = 3 ∧
    (delete_file_subgraph c2Graph "a.py").1.nodes = [] ∧
    (delete_file_subgraph c2Graph "a.py").1.edges = [] ∧
    ¬ ((delete_file_subgraph c2Graph "a.py").1.nodes.any
        (fun n => n.path = some "b.py")) := by
  decide

/-! ## C7 — change detection with a failing checksum

Model of file_traversal.calculate_file_checksum (lines 56-66) and
detect_file_changes (lines 118-169). The SHA-256 function of hashlib is an
external library; it enters the model as the parameter hashFn applied to
the file content. An I/O failure while reading the file is the io_error
flag: the except branch of calculate_file_checksum returns the empty
string instead of raising. -/

/-- file_traversal.FileStatus. -/
inductive PyFileStatus where
  | new
  | modified
  | unchanged
  | deleted
deriving DecidableEq

/-- A file produced by scan_directory, together with the behaviour of the
attempt to read it back during checksum computation. -/
structure ScannedFile where
  path : String
  absolute_path : String
  size : Nat
  extension : String
  content : String
  io_error : Bool
deriving DecidableEq

/-- file_traversal.FileChange. -/
structure FileChange where
  path : String
  absolute_path : String
  status : PyFileStatus
  old_checksum : Option String
  new_checksum : Option String
  size : Nat
  extension : String
deriving DecidableEq

/-- file_traversal.calculate_file_checksum: hash the content, but on any
read error log and return the empty string. -/
def calculate_file_checksum (hashFn : String → String) (f : ScannedFile) :
    String :=
  if f.io_error then "" else hashFn f.content

/-- The body of the per-file loop of detect_file_changes (lines 128-154):
compute the new checksum and classify against the stored checksum map. -/
def classify_current_file (hashFn : String → String)
    (stored : List (String × String)) (f : ScannedFile) : FileChange :=
  let new_checksum := calculate_file_checksum hashFn f
  match stored.lookup f.path with
  | none =>
      { path := f.path, absolute_path := f.absolute_path,
        status := PyFileStatus.new, old_checksum := none,
        new_checksum := some new_checksum, size := f.size,
        extension := f.extension }
  | some old =>
      if old ≠ new_checksum then
        { path := f.path, absolute_path := f.absolute_path,
          status := PyFileStatus.modified, old_checksum := some old,
          new_checksum := some new_checksum, size := f.size,
          extension := f.extension }
      else
        { path := f.path, absolute_path := f.absolute_path,
          status := PyFileStatus.unchanged, old_checksum := some old,
          new_checksum := some new_checksum, size := f.size,
          extension := f.extension }

/-- file_traversal.detect_file_changes (lines 118-169): classify every
scanned file, then report every stored path not among the scanned paths
as deleted. stored is the path-to-checksum dictionary in insertion
order. -/
def detect_file_changes (hashFn : String → String)
    (current : List ScannedFile) (stored : List (String × String)) :
    List FileChange :=
  current.map (classify_current_file hashFn stored) ++
    (stored.filter
      (fun kv => !(current.any (fun f => f.path = kv.1)))).map
      (fun kv =>
        { path := kv.1, absolute_path := "", status := PyFileStatus.deleted,
          old_checksum := some kv.2, new_checksum := none, size := 0,
          extension := "" })

theorem filter_map_comm {α β : Type} (f : α → β) (p : β → Bool) :
    ∀ l : List α, (l.map f).filter p = (l.filter (fun x => p (f x))).map f := by
  intro l
  induction l with
  | nil => rfl
  | cons a t ih =>
    by_cases h : p (f a) = true
    · simp [List.filter, h, ih]
    · simp only [Bool.not_eq_true] at h
      simp [List.filter, h, ih]

/-- Claim C7, counterexample. The claim states that a file whose checksum
computation failed with an I/O error is excluded from the returned change
set. With a single scanned file x.py whose read fails and an empty store,
the returned change set nevertheless contains an entry for x.py (as new,
with an empty checksum), so the file is not excluded. -/
theorem c7_failing_file_not_excluded :
    detect_file_changes (fun s => s)
      [ { path := "x.py", absolute_path := "/w/x.py", size := 10,
          extension := ".py", content := "print 1", io_error := true } ]
      [] =
    [ { path := "x.py", absolute_path := "/w/x.py",
        status := PyFileStatus.new, old_checksum := none,
        new_checksum := some "", size := 10, extension := ".py" } ] := by
  decide

/-- Claim C7 as amended: an I/O failure while computing the checksum of
one file does not poison the other files — every other entry of the
change set is exactly what it would be without the failing file — but the
failing file is not excluded: it appears in the change set with an empty
new_checksum, classified new when its path is unknown to the store and
modified when the store holds a non-empty checksum for it. -/
theorem c7_failing_file_included_others_unaffected
    (hashFn : String → String) (stored : List (String × String))
    (l₁ l₂ : List ScannedFile) (f : ScannedFile)
    (hio : f.io_error = true) :
    (classify_current_file hashFn stored f).path = f.path ∧
    (classify_current_file hashFn stored f).new_checksum = some "" ∧
    (classify_current_file hashFn stored f).status =
      (match stored.lookup f.path with
       | none => PyFileStatus.new
       | some old =>
         if old ≠ "" then PyFileStatus.modified else PyFileStatus.unchanged) ∧
    classify_current_file hashFn stored f ∈
      detect_file_changes hashFn (l₁ ++ f :: l₂) stored ∧
    (detect_file_changes hashFn (l₁ ++ f :: l₂) stored).filter
        (fun c => c.path ≠ f.path) =
      (detect_file_changes hashFn (l₁ ++ l₂) stored).filter
        (fun c => c.path ≠ f.path) := by
  have hck : calculate_file_checksum hashFn f = "" := by
    simp [calculate_file_checksum, hio]
  have hclsp : ∀ (st : List (String × String)) (x : ScannedFile),
      (classify_current_file hashFn st x).path = x.path := by
    intro st x
    unfold classify_current_file
    cases st.lookup x.path with
    | none => rfl
    | some old =>
      by_cases h : old ≠ calculate_file_checksum hashFn x <;> simp [h]
  refine ⟨hclsp stored f, ?_, ?_, ?_, ?_⟩
  · unfold classify_current_file
    cases stored.lookup f.path with
    | none => simp [hck]
    | some old => by_cases h : old ≠ "" <;> simp [hck, h]
  · unfold classify_current_file
    cases stored.lookup f.path with
    | none => simp [hck]
    | some old => by_cases h : old ≠ "" <;> simp [hck, h]
  · unfold detect_file_changes
    exact List.mem_append_left _ (List.mem_map_of_mem _ (by simp))
  · unfold detect_file_changes
    rw [List.filter_append, List.filter_append]
    have hmap : ∀ l : List ScannedFile,
        (l.map (classify_current_file hashFn stored)).filter
            (fun c => decide (c.path ≠ f.path)) =
          (l.filter (fun x => decide (x.path ≠ f.path))).map
            (classify_current_file hashFn stored) := by
      intro l
      rw [filter_map_comm]
      congr 1
      apply List.filter_congr
      intro x _
      rw [hclsp stored x]
    have hmapeq :
        ((l₁ ++ f :: l₂).map (classify_current_file hashFn stored)).filter
            (fun c => decide (c.path ≠ f.path)) =
          ((l₁ ++ l₂).map (classify_current_file hashFn stored)).filter
            (fun c => decide (c.path ≠ f.path)) := by
      rw [hmap, hmap, List.filter_append, List.filter_append]
      have : (f :: l₂).filter (fun x => decide (x.path ≠ f.path)) =
          l₂.filter (fun x => decide (x.path ≠ f.path)) := by
        simp [List.filter]
      rw [this]
    rw [hmapeq]
    congr 1
    rw [filter_map_comm, filter_map_comm]
    congr 1
    rw [List.filter_filter, List.filter_filter]
    apply List.filter_congr
    intro kv _
    by_cases hk : kv.1 = f.path
    · simp [hk]
    · have hk2 : (decide (f.path = kv.1)) = false := by
        simp
        intro hc
        exact hk hc.symm
      simp [List.any_append, hk, hk2]

/-- Concrete failing file for the C7 witness. -/
def c7File : ScannedFile :=
  { path := "x.py", absolute_path := "/w/x.py", size := 10,
    extension := ".py", content := "print 1", io_error := true }

/-- Concrete healthy file for the C7 witness. -/
def c7Good : ScannedFile :=
  { path := "y.py", absolute_path := "/w/y.py", size := 5,
    extension := ".py", content := "print 2", io_error := false }

/-- Witness for the amended claim C7 at a concrete store and workspace. -/
theorem c7_failing_file_included_others_unaffected_witness :
    (classify_current_file (fun s => s) [("y.py", "abc")] c7File).path =
        c7File.path ∧
    (classify_current_file (fun s => s) [("y.py", "abc")] c7File).new_checksum =
        some "" ∧
    (classify_current_file (fun s => s) [("y.py", "abc")] c7File).status =
      (match ([("y.py", "abc")] : List (String × String)).lookup c7File.path with
       | none => PyFileStatus.new
       | some old =>
         if old ≠ "" then PyFileStatus.modified else PyFileStatus.unchanged) ∧
    classify_current_file (fun s => s) [("y.py", "abc")] c7File ∈
      detect_file_changes (fun s => s) ([c7Good] ++ c7File :: [])
        [("y.py", "abc")] ∧
    (detect_file_changes (fun s => s) ([c7Good] ++ c7File :: [])
        [("y.py", "abc")]).filter (fun c => c.path ≠ c7File.path) =
      (detect_file_changes (fun s => s) ([c7Good] ++ [])
        [("y.py", "abc")]).filter (fun c => c.path ≠ c7File.path) :=
  c7_failing_file_included_others_unaffected (fun s => s) [("y.py", "abc")]
    [c7Good] [] c7File rfl

/-! ## C8 — embedding input selection

Model of the text-selection loop of
llm_integration.LLMEmbeddingIntegration.process_embeddings_batch
(lines 368-376). The rows come from get_nodes_needing_embeddings, whose
query guarantees generated_summary IS NOT NULL; raw_code may be null. -/

/-- A node row as seen by process_embeddings_batch. -/
structure EmbedNode where
  name : String
  summary : String
  raw_code : Option String
deriving DecidableEq

/-- The per-node text selection of process_embeddings_batch: the summary
when truthy and non-blank, else the first 1000 characters of raw_code
when truthy, else the name. -/
def choose_embedding_text (n : EmbedNode) : String :=
  if n.summary ≠ "" ∧ pyStrip n.summary ≠ "" then n.summary
  else
    match n.raw_code with
    | some c => if c ≠ "" then pySlice 1000 c else n.name
    | none => n.name

/-- The texts handed to generate_embeddings_batch, in node order. -/
def process_embeddings_batch_texts (nodes : List EmbedNode) : List String :=
  nodes.map choose_embedding_text

/-- The selection rule in the words of the specification: the generated
summary when non-empty after trimming whitespace, else the first 1000
characters of raw_code when non-empty, else the name. -/
def specC8Text (n : EmbedNode) : String :=
  if pyStrip n.summary ≠ "" then n.summary
  else if n.raw_code.getD "" ≠ "" then pySlice 1000 (n.raw_code.getD "")
  else n.name

/-- Claim C8. For every node in an embedding batch, the text given to the
embedder is the generated summary when it is non-empty after trimming,
else the first 1000 characters of raw_code when non-empty, else the
name. -/
theorem c8_embedding_text_selection (nodes : List EmbedNode) (i : Nat)
    (hi : i < nodes.length)
    (ht : i < (process_embeddings_batch_texts nodes).length) :
    (process_embeddings_batch_texts nodes).get ⟨i, ht⟩ =
      specC8Text (nodes.get ⟨i, hi⟩) := by
  have hmap : (process_embeddings_batch_texts nodes).get ⟨i, ht⟩ =
      choose_embedding_text (nodes.get ⟨i, hi⟩) := by
    simp [process_embeddings_batch_texts]
  rw [hmap]
  set n := nodes.get ⟨i, hi⟩
  unfold choose_embedding_text specC8Text
  by_cases hs : pyStrip n.summary ≠ ""
  · have hne : n.summary ≠ "" := by
      intro h
      apply hs
      rw [h]
      rfl
    simp [hs, hne]
  · simp only [ne_eq, not_not] at hs
    simp only [hs, ne_eq, not_true_eq_false, and_false, if_false]
    cases hrc : n.raw_code with
    | none => simp
    | some c =>
      by_cases hc : c ≠ "" <;> simp [hc]

/-- Witness for claim C8 at a concrete three-node batch exercising all
three fallbacks. -/
theorem c8_embedding_text_selection_witness :
    (process_embeddings_batch_texts
      [ { name := "f", summary := "adds numbers", raw_code := some "def f: 1" },
        { name := "g", summary := "  ", raw_code := some "def g: 2" },
        { name := "h", summary := "", raw_code := none } ]).get
        ⟨2, by decide⟩ =
      specC8Text
        ([ { name := "f", summary := "adds numbers", raw_code := some "def f: 1" },
           { name := "g", summary := "  ", raw_code := some "def g: 2" },
           { name := "h", summary := "", raw_code := none } ].get ⟨2, by decide⟩) :=
  c8_embedding_text_selection _ 2 (by decide) (by decide)

/-! ## C9 — call hierarchy

Model of graph_traversal.get_call_hierarchy (lines 367-396) with
_get_callers (398-430) and _get_callees (432-464). The Cypher patterns
(caller)-[:CALLS*1..d]->(target) and (source)-[:CALLS*1..d]->(callee)
are variable-length directed matches, i.e. existence of a CALLS walk of
length between 1 and d. The queries return DISTINCT rows ordered by name
with LIMIT 20; the store is taken to hold distinct node records. -/

/-- graph_traversal.TraversalDirection. -/
inductive TraversalDirection where
  | outgoing
  | incoming
  | both
deriving DecidableEq

/-- Targets of CALLS edges out of a node id. -/
def callTargets (g : Graph) (a : String) : List String :=
  (g.edges.filter (fun e => e.typ = "CALLS" && e.src = a)).map (fun e => e.tgt)

/-- Existence of a CALLS walk from a to b of length between 1 and the
given bound. -/
def callsWalk (g : Graph) (a b : String) : Nat → Bool
  | 0 => false
  | d + 1 => (callTargets g a).any (fun t => t = b || callsWalk g t b d)

/-- graph_traversal._get_callers: nodes with a CALLS path of length
1..max_depth into the node with id method_id, the target itself excluded,
ordered by name, limited to 20. No row is produced when no node carries
the requested id. -/
def get_callers (g : Graph) (method_id : String) (max_depth : Nat) :
    List GNode :=
  if g.nodes.any (fun n => n.id = method_id) then
    ((List.insertionSort (fun a b => a.name ≤ b.name)
      (g.nodes.filter
        (fun n => callsWalk g n.id method_id max_depth &&
          n.id ≠ method_id))).take 20)
  else []

/-- graph_traversal._get_callees: nodes with a CALLS path of length
1..max_depth out of the node with id method_id, the source itself
excluded, ordered by name, limited to 20. -/
def get_callees (g : Graph) (method_id : String) (max_depth : Nat) :
    List GNode :=
  if g.nodes.any (fun n => n.id = method_id) then
    ((List.insertionSort (fun a b => a.name ≤ b.name)
      (g.nodes.filter
        (fun n => callsWalk g method_id n.id max_depth &&
          n.id ≠ method_id))).take 20)
  else []

/-- graph_traversal.get_call_hierarchy: callers for the incoming and both
directions, callees for the outgoing and both directions. -/
def get_call_hierarchy (g : Graph) (method_id : String)
    (direction : TraversalDirection) (max_depth : Nat) :
    List GNode × List GNode :=
  ( if direction = TraversalDirection.incoming ∨
        direction = TraversalDirection.both then
      get_callers g method_id max_depth
    else [],
    if direction = TraversalDirection.outgoing ∨
        direction = TraversalDirection.both then
      get_callees g method_id max_depth
    else [] )

/-- Mutually recursive call graph for the C9 counterexample: functions a
and b call each other. -/
def c9Graph : Graph :=
  { nodes :=
      [ { id := "A", label := "Function", name := "a", path := none },
        { id := "B", label := "Function", name := "b", path := none } ],
    edges :=
      [ { src := "A", tgt := "B", typ := "CALLS" },
        { src := "B", tgt := "A", typ := "CALLS" } ] }

/-- Claim C9, counterexample. The claim states that with direction both
the callers and callees lists are disjoint as sets of node ids. In
c9Graph the functions a and b call each other, so b is both a caller and
a callee of a: the two lists returned for node A share the node id B and
are not disjoint. -/
theorem c9_caller_callee_lists_not_disjoint :
    ((get_call_hierarchy c9Graph "A" TraversalDirection.both 2).1.map
        (fun n => n.id)) = ["B"] ∧
    ((get_call_hierarchy c9Graph "A" TraversalDirection.both 2).2.map
        (fun n => n.id)) = ["B"] ∧
    ((get_call_hierarchy c9Graph "A" TraversalDirection.both 2).1.any
        (fun n =>
          (get_call_hierarchy c9Graph "A" TraversalDirection.both 2).2.any
            (fun m => m.id = n.id))) = true := by
  decide

/-- Claim C9 as amended: with direction both, get_call_hierarchy returns
a callers list and a callees list each containing at most 20 nodes and
each excluding the queried node id, but the two lists need not be
disjoint (a CALLS cycle through the queried node places the same node in
both). -/
theorem c9_hierarchy_capped_and_excludes_self (g : Graph)
    (method_id : String) (max_depth : Nat) :
    (get_call_hierarchy g method_id TraversalDirection.both max_depth).1.length
        ≤ 20 ∧
    (get_call_hierarchy g method_id TraversalDirection.both max_depth).2.length
        ≤ 20 ∧
    (get_call_hierarchy g method_id TraversalDirection.both max_depth).1.all
        (fun n => n.id ≠ method_id) = true ∧
    (get_call_hierarchy g method_id TraversalDirection.both max_depth).2.all
        (fun n => n.id ≠ method_id) = true := by
  have hlen : ∀ l : List GNode, (l.take 20).length ≤ 20 :=
    fun l => List.length_take_le 20 l
  have hall : ∀ (l : List GNode) (pred : GNode → Bool),
      (((List.insertionSort (fun a b => a.name ≤ b.name)
          (l.filter (fun n => pred n && n.id ≠ method_id))).take 20).all
        (fun n => n.id ≠ method_id)) = true := by
    intro l pred
    rw [List.all_eq_true]
    intro n hn
    have hn2 := List.take_subset 20 _ hn
    have hn3 := (List.perm_insertionSort (fun a b => a.name ≤ b.name)
      (l.filter (fun n => pred n && n.id ≠ method_id))).mem_iff.mp hn2
    have hn4 := List.of_mem_filter hn3
    exact (Bool.and_elim_right hn4)
  constructor
  · simp only [get_call_hierarchy, get_callers]
    split
    · split
      · exact hlen _
      · simp
    · simp
  constructor
  · simp only [get_call_hierarchy, get_callees]
    split
    · split
      · exact hlen _
      · simp
    · simp
  constructor
  · simp only [get_call_hierarchy, get_callers]
    split
    · split
      · exact hall _ _
      · rfl
    · rfl
  · simp only [get_call_hierarchy, get_callees]
    split
    · split
      · exact hall _ _
      · rfl
    · rfl

/-! ## C4 — query intent classification

Model of hybrid_search.QueryParser.parse_query (lines 102-151) and
_determine_query_type (lines 153-175). The five entity regexes all
consist of word-boundary anchored character classes, so each can only
match a maximal word-character run of the query in its entirety;
re.findall per pattern is therefore the list of runs satisfying the
pattern predicate. Floats are rationals; the Python set literal of
programming terms is a list here (the duplicate member error of the
source set literal is dropped by the set itself). -/

/-- hybrid_search.QueryParser.programming_terms. -/
def programmingTerms : List String :=
  [ "class", "method", "function", "variable", "interface", "enum",
    "constructor", "property", "field", "parameter", "return",
    "public", "private", "protected", "static", "async", "await",
    "import", "export", "extends", "implements", "inherit", "override",
    "abstract", "virtual", "final", "const", "let", "var",
    "api", "service", "controller", "model", "dto", "entity",
    "repository", "database", "query", "connection", "client",
    "http", "request", "response", "json", "xml", "rest",
    "authenticate", "authorize", "login", "logout", "session",
    "cache", "redis", "memory", "storage", "file", "directory",
    "test", "mock", "stub", "unit", "integration", "e2e",
    "exception", "error", "try", "catch", "throw", "handle",
    "log", "logger", "debug", "info", "warn" ]

/-- hybrid_search.QueryParser.node_type_mapping. -/
def nodeTypeMapping : List (String × List String) :=
  [ ("class", ["Class"]), ("classes", ["Class"]),
    ("interface", ["Interface"]), ("interfaces", ["Interface"]),
    ("method", ["Method"]), ("methods", ["Method"]),
    ("function", ["Function"]), ("functions", ["Function"]),
    ("variable", ["Variable"]), ("variables", ["Variable"]),
    ("file", ["File"]), ("files", ["File"]) ]

/-- A regex word character, ASCII. -/
def isWordChar (c : Char) : Bool :=
  c.isAlphanum || c = '_'

/-- Maximal word-character runs of a string. -/
def wordRuns (s : String) : List (List Char) :=
  charRuns isWordChar s.data

def upperStart : List Char → Bool
  | [] => false
  | c :: _ => c.isUpper

def lowerStart : List Char → Bool
  | [] => false
  | c :: _ => c.isLower

def allAlpha (l : List Char) : Bool :=
  l.all Char.isAlpha

/-- A run matches a pattern of shape boundary, start class, letters,
suffix alternation, boundary: it is all letters, starts in the start
class, and properly ends with one of the suffixes. -/
def suffixPatternMatch (startClass : List Char → Bool)
    (suffixes : List String) (l : List Char) : Bool :=
  startClass l && allAlpha l &&
    suffixes.any (fun suf =>
      decide (suf.data <:+ l) && decide (suf.data.length < l.length))

def entityPattern1 : List Char → Bool :=
  suffixPatternMatch upperStart
    [ "Service", "Controller", "Repository", "Manager", "Handler",
      "Factory", "Builder", "Helper", "Util", "Utils" ]

def entityPattern2 : List Char → Bool :=
  suffixPatternMatch upperStart
    [ "Entity", "Model", "DTO", "Request", "Response", "Config",
      "Configuration" ]

def entityPattern3 : List Char → Bool :=
  suffixPatternMatch upperStart ["Exception", "Error"]

def entityPattern4 : List Char → Bool :=
  suffixPatternMatch lowerStart ["Api", "HTTP", "Rest", "GraphQL"]

/-- The general PascalCase pattern: a word run starting with an
upper-case letter. -/
def entityPattern5 : List Char → Bool :=
  upperStart

/-- re.findall of a word-boundary anchored pattern over the query. -/
def findallWordPattern (p : List Char → Bool) (s : String) : List String :=
  ((wordRuns s).filter p).map String.mk

/-- parse_query entity-name extraction: findall of each entity pattern,
concatenated in pattern order. -/
def extract_entity_names (query : String) : List String :=
  findallWordPattern entityPattern1 query ++
    findallWordPattern entityPattern2 query ++
    findallWordPattern entityPattern3 query ++
    findallWordPattern entityPattern4 query ++
    findallWordPattern entityPattern5 query

/-- parse_query programming-term extraction over the whitespace-split
words. -/
def extract_programming_terms (query : String) : List String :=
  (pySplitWs query).filterMap (fun w =>
    let lw := pyLower w
    if lw ∈ programmingTerms then some lw else none)

/-- parse_query node-type extraction over the whitespace-split words. -/
def extract_node_types (query : String) : List String :=
  (pySplitWs query).flatMap (fun w =>
    (nodeTypeMapping.lookup (pyLower w)).getD [])

/-- re.sub of non-word characters after lower-casing. -/
def cleanWord (w : String) : String :=
  String.mk ((pyLower w).data.filter isWordChar)

/-- parse_query semantic-term extraction: cleaned lower-case words that
are neither programming terms nor node-type keys and are longer than two
characters. -/
def extract_semantic_terms (query : String) : List String :=
  (pySplitWs query).filterMap (fun w =>
    let wc := cleanWord w
    if wc ∉ programmingTerms ∧ nodeTypeMapping.lookup wc = none ∧
        wc.data.length > 2 then
      some wc
    else none)

/-- hybrid_search.QueryType. -/
inductive QueryType where
  | semantic
  | entity
  | hybrid
  | contextual
deriving DecidableEq

/-- hybrid_search.QueryParser._determine_query_type (lines 153-175). -/
def determine_query_type (entity_names programming_terms semantic_terms :
    List String) : QueryType × ℚ :=
  let has_entities := decide (entity_names.length > 0)
  let has_programming := decide (programming_terms.length > 0)
  let has_semantic := decide (semantic_terms.length > 0)
  if has_entities && has_semantic then (QueryType.hybrid, 0.8)
  else if has_entities && has_programming then (QueryType.hybrid, 0.7)
  else if has_entities then (QueryType.entity, 0.9)
  else if has_programming && has_semantic then (QueryType.contextual, 0.7)
  else if has_semantic then (QueryType.semantic, 0.6)
  else (QueryType.semantic, 0.4)

/-- hybrid_search.QueryParser._should_expand_context applied to the
lower-cased query. -/
def contextIndicators : List String :=
  [ "calls", "called by", "uses", "used by", "implements", "extends",
    "inherits", "derived", "related", "similar", "dependencies",
    "hierarchy", "structure", "architecture", "flow", "interaction" ]

def should_expand_context (query_lower : String) : Bool :=
  contextIndicators.any (fun ind => pyContains query_lower ind)

/-- hybrid_search.QueryIntent. -/
structure QueryIntent where
  query_type : QueryType
  semantic_terms : List String
  entity_names : List String
  node_types : List String
  keywords : List String
  programming_terms : List String
  expand_context : Bool
  confidence : ℚ
deriving DecidableEq

/-- hybrid_search.QueryParser.parse_query (lines 102-151). The Python
node_types field is list(set(...)), whose order is unspecified; it is
modelled as an order-preserving deduplication. -/
def parse_query (query : String) : QueryIntent :=
  let entity_names := extract_entity_names query
  let programming_terms := extract_programming_terms query
  let node_types := extract_node_types query
  let semantic_terms := extract_semantic_terms query
  { query_type :=
      (determine_query_type entity_names programming_terms semantic_terms).1,
    semantic_terms := semantic_terms,
    entity_names := entity_names,
    node_types := node_types.dedup,
    keywords := programming_terms,
    programming_terms := programming_terms,
    expand_context := should_expand_context (pyLower query),
    confidence :=
      (determine_query_type entity_names programming_terms semantic_terms).2 }

/-- The decision table in the words of the claim, read sequentially:
entity and semantic give hybrid 0.8; entity alone gives entity 0.9;
programming and semantic give contextual 0.7; semantic alone gives
semantic 0.6; everything else gives semantic 0.4. -/
def specC4Table (has_entities has_programming has_semantic : Bool) :
    QueryType × ℚ :=
  if has_entities && has_semantic then (QueryType.hybrid, 0.8)
  else if has_entities then (QueryType.entity, 0.9)
  else if has_programming && has_semantic then (QueryType.contextual, 0.7)
  else if has_semantic then (QueryType.semantic, 0.6)
  else (QueryType.semantic, 0.4)

/-- The decision table the code implements: the claimed table extended
with the branch entity names together with programming terms but without
semantic terms giving hybrid 0.7. -/
def amendedC4Table (has_entities has_programming has_semantic : Bool) :
    QueryType × ℚ :=
  if has_entities && has_semantic then (QueryType.hybrid, 0.8)
  else if has_entities && has_programming then (QueryType.hybrid, 0.7)
  else if has_entities then (QueryType.entity, 0.9)
  else if has_programming && has_semantic then (QueryType.contextual, 0.7)
  else if has_semantic then (QueryType.semantic, 0.6)
  else (QueryType.semantic, 0.4)

/-- Claim C4, counterexample. For the query Api, parse_query extracts the
entity name Api and the programming term api but no semantic terms, and
classifies the query as hybrid with confidence 0.7. The claimed table has
no such outcome: at these flags it yields entity with confidence 0.9. -/
theorem c4_decision_table_counterexample :
    (parse_query "Api").entity_names = ["Api"] ∧
    (parse_query "Api").programming_terms = ["api"] ∧
    (parse_query "Api").semantic_terms = [] ∧
    ((parse_query "Api").query_type, (parse_query "Api").confidence) =
      (QueryType.hybrid, 0.7) ∧
    specC4Table true true false = (QueryType.entity, 0.9) ∧
    ((parse_query "Api").query_type, (parse_query "Api").confidence) ≠
      specC4Table (decide ((parse_query "Api").entity_names.length > 0))
        (decide ((parse_query "Api").programming_terms.length > 0))
        (decide ((parse_query "Api").semantic_terms.length > 0)) := by
  decide

theorem determine_eq_amendedC4Table (e p s : List String) :
    determine_query_type e p s =
      amendedC4Table (decide (e.length > 0)) (decide (p.length > 0))
        (decide (s.length > 0)) := by
  unfold determine_query_type amendedC4Table
  cases he : decide (e.length > 0) <;> cases hp : decide (p.length > 0) <;>
    cases hs : decide (s.length > 0) <;> simp

/-- Claim C4 as amended: parse_query classifies every query by the fixed
decision table of the code, which is the claimed table extended with the
branch entity plus programming without semantic giving hybrid 0.7. -/
theorem c4_classification_follows_amended_table (query : String) :
    ((parse_query query).query_type, (parse_query query).confidence) =
      amendedC4Table
        (decide ((parse_query query).entity_names.length > 0))
        (decide ((parse_query query).programming_terms.length > 0))
        (decide ((parse_query query).semantic_terms.length > 0)) := by
  simp only [parse_query]
  rw [determine_eq_amendedC4Table]

/-- Witness for the amended claim C4 at a concrete query. -/
theorem c4_classification_follows_amended_table_witness :
    ((parse_query "UserController login function").query_type,
        (parse_query "UserController login function").confidence) =
      amendedC4Table
        (decide ((parse_query "UserController login function").entity_names.length > 0))
        (decide ((parse_query "UserController login function").programming_terms.length > 0))
        (decide ((parse_query "UserController login function").semantic_terms.length > 0)) :=
  c4_classification_follows_amended_table "UserController login function"

/-! ## C5 — hybrid score, ordering, truncation

Model of hybrid_search.HybridSearchEngine._merge_and_score_results
(lines 441-471), _calculate_hybrid_score (473-502), _is_exact_match
(504-518) and the final sort-and-truncate step of search (249-250).
Python list.sort is stable; it is modelled by the stable insertionSort on
the reversed score order. A result record carries the length of its
context related-node list when a context object was attached, and none
when it was not. -/

/-- The configuration fields of hybrid_search.HybridSearchConfig used by
scoring and truncation. -/
structure HSearchConfig where
  max_total_results : Nat
  boost_exact_matches : ℚ
deriving DecidableEq

/-- The fields of hybrid_search.HybridSearchResult observed by
_calculate_hybrid_score and the final ordering. -/
structure HybridResultRec where
  node_id : String
  name : String
  node_type : String
  match_type : String
  hybrid_score : ℚ
  related_nodes : Option Nat
deriving DecidableEq

/-- hybrid_search.HybridSearchEngine._is_exact_match (lines 504-518). -/
def hybrid_is_exact_match (name : String) (intent : QueryIntent) : Bool :=
  let name_lower := pyLower name
  intent.entity_names.any (fun e => pyLower e = name_lower) ||
    intent.keywords.any (fun k => pyContains name_lower k)

/-- hybrid_search.HybridSearchEngine._calculate_hybrid_score
(lines 473-502). -/
def calculate_hybrid_score (r : HybridResultRec) (intent : QueryIntent)
    (config : HSearchConfig) : ℚ :=
  let base1 := r.hybrid_score
  let base2 :=
    if hybrid_is_exact_match r.name intent then
      base1 * config.boost_exact_matches
    else base1
  let base3 := base2 * intent.confidence
  let base4 :=
    if intent.node_types ≠ [] ∧ r.node_type ∈ intent.node_types then
      base3 * 1.2
    else base3
  let base5 := if pyContains r.match_type "+" then base4 * 1.1 else base4
  let base6 :=
    match r.related_nodes with
    | some k => if k > 0 then base5 + min 0.1 ((k : ℚ) * 0.002) else base5
    | none => base5
  min base6 2

/-- One step of the deduplication loop of _merge_and_score_results: a new
node id is appended, a duplicate raises the kept score to the maximum and
concatenates the match types with a plus sign. -/
def merge_one (acc : List HybridResultRec) (r : HybridResultRec) :
    List HybridResultRec :=
  if acc.any (fun x => x.node_id = r.node_id) then
    acc.map (fun x =>
      if x.node_id = r.node_id then
        { x with
          hybrid_score :=
            if r.hybrid_score > x.hybrid_score then r.hybrid_score
            else x.hybrid_score,
          match_type := x.match_type ++ "+" ++ r.match_type }
      else x)
  else acc ++ [r]

/-- The deduplication pass of _merge_and_score_results (lines 448-465). -/
def merge_dedup (results : List HybridResultRec) : List HybridResultRec :=
  results.foldl merge_one []

/-- hybrid_search.HybridSearchEngine._merge_and_score_results: dedup then
rescore every unique result. -/
def merge_and_score_results (results : List HybridResultRec)
    (intent : QueryIntent) (config : HSearchConfig) : List HybridResultRec :=
  (merge_dedup results).map
    (fun r => { r with hybrid_score := calculate_hybrid_score r intent config })

/-- The tail of hybrid_search.HybridSearchEngine.search (lines 246-250):
merge and rescore, sort by hybrid score descending (stable), truncate to
max_total_results. -/
def hybrid_search_finalize (results : List HybridResultRec)
    (intent : QueryIntent) (config : HSearchConfig) : List HybridResultRec :=
  (List.insertionSort (fun a b => b.hybrid_score ≤ a.hybrid_score)
    (merge_and_score_results results intent config)).take
    config.max_total_results

/-- The score formula in the words of the claim: base times the exact
boost, the confidence, 1.2 on a node-type hint, 1.1 on a multi-path
match, plus min(0.1, 0.002 times the related-context size), capped at
2. -/
def specC5Score (r : HybridResultRec) (intent : QueryIntent)
    (config : HSearchConfig) : ℚ :=
  min
    (r.hybrid_score *
        (if hybrid_is_exact_match r.name intent then
          config.boost_exact_matches else 1) *
        intent.confidence *
        (if r.node_type ∈ intent.node_types then 1.2 else 1) *
        (if pyContains r.match_type "+" then 1.1 else 1) +
      min 0.1 (0.002 * ((r.related_nodes.getD 0 : Nat) : ℚ)))
    2

theorem calculate_hybrid_score_eq_spec (r : HybridResultRec)
    (intent : QueryIntent) (config : HSearchConfig) :
    calculate_hybrid_score r intent config = specC5Score r intent config := by
  have hmem : (intent.node_types ≠ [] ∧ r.node_type ∈ intent.node_types) ↔
      r.node_type ∈ intent.node_types :=
    ⟨fun h => h.2, fun h => ⟨List.ne_nil_of_mem h, h⟩⟩
  have hmin0 : min (0.1 : ℚ) 0 = 0 := by norm_num
  simp only [calculate_hybrid_score, specC5Score, hmem]
  by_cases h1 : hybrid_is_exact_match r.name intent = true <;>
    by_cases h2 : r.node_type ∈ intent.node_types <;>
    by_cases h3 : pyContains r.match_type "+" = true <;>
    cases hr : r.related_nodes <;>
    simp only [h1, h2, h3, hr, if_true, if_false, Bool.false_eq_true,
      if_pos, if_neg, not_false_iff, Option.getD, Nat.cast_zero, mul_zero,
      hmin0, add_zero, mul_one, Nat.cast_ofNat]
  all_goals try (congr 1; ring)
  all_goals (
    rename_i k
    rcases Nat.eq_zero_or_pos k with hk | hk
    · subst hk
      norm_num
    · simp [hk])

/-- Claim C5. Every result returned by the final merge-score-sort-truncate
step of hybrid search carries as hybrid score exactly the claimed formula
(base times exact-match boost, intent confidence, 1.2 on a node-type
hint, 1.1 on a multi-path match, plus min(0.1, 0.002 times the number of
related context nodes), capped at 2.0), and the returned list is sorted
by that score descending and truncated to max_total_results. -/
theorem c5_hybrid_scores_formula_sorted_capped
    (results : List HybridResultRec) (intent : QueryIntent)
    (config : HSearchConfig) :
    List.Sorted (fun a b : HybridResultRec => b.hybrid_score ≤ a.hybrid_score)
      (hybrid_search_finalize results intent config) ∧
    (hybrid_search_finalize results intent config).length ≤
      config.max_total_results ∧
    (hybrid_search_finalize results intent config).all
      (fun x => (merge_dedup results).any
        (fun r =>
          x = { r with hybrid_score := specC5Score r intent config })) =
      true := by
  haveI : IsTotal HybridResultRec
      (fun a b => b.hybrid_score ≤ a.hybrid_score) :=
    ⟨fun a b => le_total b.hybrid_score a.hybrid_score⟩
  haveI : IsTrans HybridResultRec
      (fun a b => b.hybrid_score ≤ a.hybrid_score) :=
    ⟨fun a b c hab hbc => le_trans hbc hab⟩
  refine ⟨?_, ?_, ?_⟩
  · exact List.Pairwise.sublist (List.take_sublist _ _)
      (List.sorted_insertionSort _ _)
  · exact List.length_take_le _ _
  · rw [List.all_eq_true]
    intro x hx
    have hx2 := List.take_subset _ _ hx
    have hx3 := (List.perm_insertionSort
      (fun a b : HybridResultRec => b.hybrid_score ≤ a.hybrid_score)
      (merge_and_score_results results intent config)).mem_iff.mp hx2
    unfold merge_and_score_results at hx3
    rcases List.mem_map.mp hx3 with ⟨r, hrmem, hreq⟩
    rw [List.any_eq_true]
    refine ⟨r, hrmem, ?_⟩
    rw [decide_eq_true_eq, ← hreq, calculate_hybrid_score_eq_spec]

/-! ## C6 — text vector search with exact-match boosting

Model of vector_search.VectorSearchEngine.search_by_text (lines 58-104),
_search_node_type (106-186) and _is_exact_match (201-219). The rows
yielded by the per-label vector index call enter the model as input
lists, one per queried label with an existing index; the Cypher of
_search_node_type then applies the similarity threshold, orders by score
descending and limits to max_results before the Python loop applies the
exact-match boost. -/

/-- vector_search.VectorSearchConfig. -/
structure VSConfig where
  max_results : Nat
  min_similarity_threshold : ℚ
  boost_exact_matches : Bool
  boost_factor : ℚ
  include_raw_code : Bool
deriving DecidableEq

/-- A row yielded by the per-label vector index query, before threshold
filtering. -/
structure VRow where
  id : String
  name : String
  full_name : String
  node_type : String
  summary : Option String
  raw_code : Option String
  score : ℚ
deriving DecidableEq

/-- vector_search.SearchResult, with the fields the claim observes. -/
structure VSearchResult where
  node_id : String
  name : String
  full_name : String
  node_type : String
  summary : String
  raw_code : Option String
  similarity_score : ℚ
deriving DecidableEq

/-- vector_search.VectorSearchEngine._is_exact_match (lines 201-219):
true when the lower-cased name occurs in the lower-cased query or the
query occurs in the name, or when some query word longer than three
characters occurs in the lower-cased summary. -/
def vs_is_exact_match (query name : String) (summary : Option String) :
    Bool :=
  let query_lower := pyLower query
  let name_lower := pyLower name
  if pyContains query_lower name_lower || pyContains name_lower query_lower
  then true
  else
    match summary with
    | some s =>
      if s ≠ "" then
        (pySplitWs query_lower).any
          (fun w => decide (w.data.length > 3) && pyContains (pyLower s) w)
      else false
    | none => false

/-- The per-row result construction of _search_node_type (lines 153-181):
apply the boost when enabled and matching, copy the row fields. -/
def vs_row_to_result (query_text : String) (config : VSConfig) (r : VRow) :
    VSearchResult :=
  { node_id := r.id, name := r.name, full_name := r.full_name,
    node_type := r.node_type, summary := r.summary.getD "",
    raw_code := if config.include_raw_code then r.raw_code else none,
    similarity_score :=
      if config.boost_exact_matches &&
          vs_is_exact_match query_text r.name r.summary then
        r.score * config.boost_factor
      else r.score }

/-- vector_search.VectorSearchEngine._search_node_type: threshold, order
by score descending, limit, then boost each surviving row. -/
def search_node_type (query_text : String) (config : VSConfig)
    (rows : List VRow) : List VSearchResult :=
  (((List.insertionSort (fun a b : VRow => b.score ≤ a.score)
      (rows.filter
        (fun r => config.min_similarity_threshold ≤ r.score))).take
    config.max_results).map (vs_row_to_result query_text config))

/-- vector_search.VectorSearchEngine.search_by_text: combine the results
of every queried label, sort by adjusted score descending, keep the top
max_results. -/
def search_by_text (query_text : String) (config : VSConfig)
    (per_label_rows : List (List VRow)) : List VSearchResult :=
  (List.insertionSort
    (fun a b : VSearchResult => b.similarity_score ≤ a.similarity_score)
    ((per_label_rows.map (search_node_type query_text config)).flatten)).take
    config.max_results

/-- The exact-match condition in the words of the claim: the whole query
string appears (case-insensitively) in the name, or some query word
longer than three characters appears in the summary. -/
def specC6ExactMatch (query name : String) (summary : Option String) :
    Bool :=
  pyContains (pyLower name) (pyLower query) ||
    (match summary with
     | some s =>
       (pySplitWs (pyLower query)).any
         (fun w => decide (w.data.length > 3) && pyContains (pyLower s) w)
     | none => false)

/-- The configuration of the C6 counterexample: defaults of
VectorSearchConfig. -/
def c6Config : VSConfig :=
  { max_results := 20, min_similarity_threshold := 0.6,
    boost_exact_matches := true, boost_factor := 1.2,
    include_raw_code := false }

/-- Claim C6, counterexample. The claim boosts a result exactly when the
whole query appears in the name or a long query word appears in the
summary. For the query payment service and a node named payment with no
summary, neither holds — yet the code boosts, because _is_exact_match
also fires when the name occurs inside the query: the returned similarity
is 0.7 times 1.2 rather than the unmodified 0.7. -/
theorem c6_boost_fires_although_claim_predicts_unmodified :
    (search_by_text "payment service" c6Config
      [[ { id := "n1", name := "payment", full_name := "pay.payment",
           node_type := "Function", summary := none, raw_code := none,
           score := 0.7 } ]]).map (fun r => r.similarity_score) =
      [0.7 * 1.2] ∧
    specC6ExactMatch "payment service" "payment" none = false ∧
    ((0.7 : ℚ) * 1.2) ≠ 0.7 := by
  refine ⟨by decide, by decide, by norm_num⟩

/-- Claim C6 as amended: search_by_text returns at most max_results
results sorted by adjusted similarity descending, where each result stems
from an index row that passed the minimum-similarity threshold and its
adjusted similarity is the row score multiplied by boost_factor exactly
when boosting is enabled and the code predicate holds — the lower-cased
name occurs in the query or the query occurs in the name, or some query
word longer than three characters occurs in the summary — and the
unmodified row score otherwise. -/
theorem c6_search_by_text_sorted_capped_boost_rule (query_text : String)
    (config : VSConfig) (per_label_rows : List (List VRow)) :
    List.Sorted
      (fun a b : VSearchResult => b.similarity_score ≤ a.similarity_score)
      (search_by_text query_text config per_label_rows) ∧
    (search_by_text query_text config per_label_rows).length ≤
      config.max_results ∧
    (search_by_text query_text config per_label_rows).all
      (fun res => per_label_rows.any (fun rows => rows.any (fun r =>
        decide (config.min_similarity_threshold ≤ r.score) &&
        decide (res = vs_row_to_result query_text config r) &&
        decide (res.similarity_score =
          if config.boost_exact_matches &&
              vs_is_exact_match query_text r.name r.summary then
            r.score * config.boost_factor
          else r.score)))) = true := by
  haveI : IsTotal VSearchResult
      (fun a b => b.similarity_score ≤ a.similarity_score) :=
    ⟨fun a b => le_total b.similarity_score a.similarity_score⟩
  haveI : IsTrans VSearchResult
      (fun a b => b.similarity_score ≤ a.similarity_score) :=
    ⟨fun a b c hab hbc => le_trans hbc hab⟩
  refine ⟨?_, ?_, ?_⟩
  · exact List.Pairwise.sublist (List.take_sublist _ _)
      (List.sorted_insertionSort _ _)
  · exact List.length_take_le _ _
  · rw [List.all_eq_true]
    intro x hx
    have hx2 := List.take_subset _ _ hx
    have hx3 := (List.perm_insertionSort
      (fun a b : VSearchResult => b.similarity_score ≤ a.similarity_score)
      _).mem_iff.mp hx2
    rcases List.mem_flatten.mp hx3 with ⟨inner, hinner, hxin⟩
    rcases List.mem_map.mp hinner with ⟨rows, hrows, hinner2⟩
    subst hinner2
    unfold search_node_type at hxin
    rcases List.mem_map.mp hxin with ⟨r, hrmem, hrx⟩
    have hrmem2 := List.take_subset _ _ hrmem
    have hrmem3 := (List.perm_insertionSort
      (fun a b : VRow => b.score ≤ a.score) _).mem_iff.mp hrmem2
    have hrfilter := List.mem_filter.mp hrmem3
    rw [List.any_eq_true]
    refine ⟨rows, hrows, ?_⟩
    rw [List.any_eq_true]
    refine ⟨r, hrfilter.1, ?_⟩
    rw [Bool.and_eq_true, Bool.and_eq_true]
    refine ⟨⟨?_, ?_⟩, ?_⟩
    · exact hrfilter.2
    · rw [decide_eq_true_eq]
      exact hrx.symm
    · rw [decide_eq_true_eq, ← hrx]
      rfl

/-! ## C10 — batch summary generation totality

Model of llm_integration.LLMSummarizer.generate_summaries_batch
(lines 211-242). The tasks are created over zip(texts, node_types) with
enumerate order preserved by asyncio.gather; the behaviour of task i is
the environment value env i: either the outcome of the LLM call inside
generate_summary (handled there), or an exception surfaced to gather
itself (handled by the isinstance branch with the marker
Summary generation failed). In the exception branch the source reads
texts[i], which equals the zipped text at position i. The contexts
argument only alters the prompt sent to the provider and is absorbed into
the environment. -/

/-- Behaviour of one gathered task. -/
inductive GatherItem where
  | res (o : LLMOutcome)
  | exc (e : String)
deriving DecidableEq

/-- The result recorded for task i on text t with node type ty. -/
def generate_summaries_item (model : String) (env : Nat → GatherItem)
    (i : Nat) (t ty : String) : SummaryResult :=
  match env i with
  | .res o => generate_summary model t ty o
  | .exc e =>
      { original_text := t,
        summary := "Summary generation failed: " ++ e,
        model_name := model, token_count := 0 }

/-- The gathered results for the zipped inputs starting at task index
i. -/
def generate_summaries_batch_aux (model : String) (env : Nat → GatherItem) :
    Nat → List String → List String → List SummaryResult
  | _, [], _ => []
  | _, _ :: _, [] => []
  | i, t :: ts, ty :: tys =>
      generate_summaries_item model env i t ty ::
        generate_summaries_batch_aux model env (i + 1) ts tys

/-- llm_integration.LLMSummarizer.generate_summaries_batch
(lines 211-242). -/
def generate_summaries_batch (model : String)
    (texts node_types : List String) (env : Nat → GatherItem) :
    List SummaryResult :=
  generate_summaries_batch_aux model env 0 texts node_types

theorem generate_summaries_batch_aux_spec (model : String)
    (env : Nat → GatherItem) :
    ∀ (ts tys : List String) (i0 : Nat), tys.length = ts.length →
      (generate_summaries_batch_aux model env i0 ts tys).length =
        ts.length ∧
      ∀ j : Nat, j < ts.length →
        (generate_summaries_batch_aux model env i0 ts tys)[j]? =
          some (generate_summaries_item model env (i0 + j) (ts.getD j "")
            (tys.getD j "")) := by
  intro ts
  induction ts with
  | nil =>
    intro tys i0 h
    refine ⟨by simp [generate_summaries_batch_aux], ?_⟩
    intro j hj
    simp at hj
  | cons t ts ih =>
    intro tys i0 h
    cases tys with
    | nil => simp at h
    | cons ty tys =>
      simp only [List.length_cons, Nat.succ_inj] at h
      rcases ih tys (i0 + 1) h with ⟨hlen, hget⟩
      refine ⟨by simp [generate_summaries_batch_aux, hlen], ?_⟩
      intro j hj
      cases j with
      | zero =>
        simp [generate_summaries_batch_aux]
      | succ j =>
        simp only [List.length_cons, Nat.succ_lt_succ_iff] at hj
        have := hget j hj
        simp only [generate_summaries_batch_aux, List.getElem?_cons_succ]
        rw [this]
        have harith : i0 + 1 + j = i0 + (j + 1) := by omega
        simp [harith]

/-- Claim C10. With well-formed inputs (one node type per text),
generate_summaries_batch returns exactly one SummaryResult per input
text, in input order; a task whose LLM call raised inside
generate_summary yields the placeholder Code type - summary generation
failed at its own position, and a task whose exception surfaced to
asyncio.gather yields the marker Summary generation failed at its own
position, so no entry is omitted or shifted and no exception propagates
(the model is a total function). -/
theorem c10_batch_is_total_ordered_with_markers (model : String)
    (texts node_types : List String) (env : Nat → GatherItem)
    (h : node_types.length = texts.length) :
    (generate_summaries_batch model texts node_types env).length =
      texts.length ∧
    ∀ i : Nat, i < texts.length →
      (generate_summaries_batch model texts node_types env)[i]? =
        some { original_text := texts.getD i "",
               summary :=
                 (match env i with
                  | .res (.ok s _) => s
                  | .res (.err _) =>
                      "Code " ++ node_types.getD i "" ++
                        " - summary generation failed"
                  | .exc e => "Summary generation failed: " ++ e),
               model_name := model,
               token_count :=
                 (match env i with
                  | .res (.ok _ tok) => tok
                  | .res (.err _) => 0
                  | .exc _ => 0) } := by
  rcases generate_summaries_batch_aux_spec model env texts node_types 0 h
    with ⟨hlen, hget⟩
  refine ⟨hlen, ?_⟩
  intro i hi
  have := hget i hi
  rw [generate_summaries_batch, this]
  congr 1
  unfold generate_summaries_item generate_summary
  cases henv : env (0 + i) with
  | res o =>
    cases o with
    | ok s tok =>
      have h0 : (0 : Nat) + i = i := Nat.zero_add i
      rw [h0] at henv
      simp [henv]
    | err e =>
      have h0 : (0 : Nat) + i = i := Nat.zero_add i
      rw [h0] at henv
      simp [henv]
  | exc e =>
    have h0 : (0 : Nat) + i = i := Nat.zero_add i
    rw [h0] at henv
    simp [henv]

/-- Witness for claim C10 on a two-element batch with one in-call failure
and one gather-level exception. -/
theorem c10_batch_is_total_ordered_with_markers_witness :
    (generate_summaries_batch "m" ["t0", "t1"] ["function", "class"]
      (fun i => if i = 0 then GatherItem.res (LLMOutcome.err "boom")
                else GatherItem.exc "cancelled")).length = 2 ∧
    ∀ i : Nat, i < (["t0", "t1"] : List String).length →
      (generate_summaries_batch "m" ["t0", "t1"] ["function", "class"]
        (fun i => if i = 0 then GatherItem.res (LLMOutcome.err "boom")
                  else GatherItem.exc "cancelled"))[i]? =
        some { original_text := (["t0", "t1"] : List String).getD i "",
               summary :=
                 (match (if i = 0 then GatherItem.res (LLMOutcome.err "boom")
                         else GatherItem.exc "cancelled") with
                  | .res (.ok s _) => s
                  | .res (.err _) =>
                      "Code " ++ (["function", "class"] : List String).getD i ""
                        ++ " - summary generation failed"
                  | .exc e => "Summary generation failed: " ++ e),
               model_name := "m",
               token_count :=
                 (match (if i = 0 then GatherItem.res (LLMOutcome.err "boom")
                         else GatherItem.exc "cancelled") with
                  | .res (.ok _ tok) => tok
                  | .res (.err _) => 0
                  | .exc _ => 0) } :=
  c10_batch_is_total_ordered_with_markers "m" ["t0", "t1"]
    ["function", "class"]
    (fun i => if i = 0 then GatherItem.res (LLMOutcome.err "boom")
              else GatherItem.exc "cancelled") rfl

/-! ## C3 — idempotent ingestion

Model of graph_ingestion._ingest_nodes_batch (lines 149-187),
_ingest_relationships_fallback (233-271) and the batched driver
ingest_chunker_output (106-147). Neo4j property maps are modelled as
finite maps from property names to values; the Cypher SET n += row is a
left fold of insertions over the row entries. MERGE (n:Label with id)
matches every stored node with that label and id and applies the SET to
each, or creates the node when none matches; the fallback relationship
MERGE is keyed by source id, type and target id, and a row whose source
or target id matches no stored node produces nothing. Rows are Python
dictionaries, so each row has pairwise distinct property names; fragment
node rows are keyed by distinct ids per the data-model invariant, which
enters the theorems as Pairwise hypotheses on the row keys. -/

/-- Property values of the canonical schema. -/
inductive AttrVal where
  | str (s : String)
  | int (n : Int)
  | bool (b : Bool)
  | strList (l : List String)
deriving DecidableEq

/-- A Neo4j property map. -/
abbrev AttrMap := Finmap (fun _ : String => AttrVal)

/-- Cypher SET n += row over the entries of a row. -/
def setProps (m : AttrMap) (props : List (String × AttrVal)) : AttrMap :=
  props.foldl (fun acc kv => acc.insert kv.1 kv.2) m

/-- Left-biased choice on options. -/
def optOr {α : Type} (a b : Option α) : Option α :=
  match a with
  | some v => some v
  | none => b

/-- The last binding of a key in a row. -/
def lastEntry (props : List (String × AttrVal)) (k : String) :
    Option AttrVal :=
  List.lookup k props.reverse

theorem list_lookup_append {α β : Type} [BEq α] (k : α)
    (l₁ l₂ : List (α × β)) :
    List.lookup k (l₁ ++ l₂) = optOr (List.lookup k l₁) (List.lookup k l₂) := by
  induction l₁ with
  | nil => simp [List.lookup, optOr]
  | cons kv rest ih =>
    rcases kv with ⟨a, b⟩
    by_cases h : k == a
    · simp [List.lookup, h, optOr]
    · simp only [Bool.not_eq_true] at h
      simp [List.lookup, h, ih]

theorem lookup_setProps (props : List (String × AttrVal)) :
    ∀ (m : AttrMap) (k : String),
      (setProps m props).lookup k = optOr (lastEntry props k) (m.lookup k) := by
  induction props with
  | nil => intro m k; simp [setProps, lastEntry, List.lookup, optOr]
  | cons kv rest ih =>
    intro m k
    rcases kv with ⟨a, b⟩
    have hstep : setProps m ((a, b) :: rest) = setProps (m.insert a b) rest :=
      rfl
    rw [hstep, ih]
    have hlast : lastEntry ((a, b) :: rest) k =
        optOr (lastEntry rest k) (List.lookup k [(a, b)]) := by
      unfold lastEntry
      rw [List.reverse_cons, list_lookup_append]
    rw [hlast]
    cases hrest : lastEntry rest k with
    | some v => simp [optOr]
    | none =>
      simp only [optOr]
      by_cases hk : k = a
      · subst hk
        simp [List.lookup, Finmap.lookup_insert]
      · have hne : (k == a) = false := by
          simp [hk]
        simp [List.lookup, hne, Finmap.lookup_insert_of_ne m hk]

theorem optOr_self_absorb {α : Type} (a b : Option α) :
    optOr a (optOr a b) = optOr a b := by
  cases a <;> simp [optOr]

theorem setProps_setProps (m : AttrMap) (props : List (String × AttrVal)) :
    setProps (setProps m props) props = setProps m props := by
  apply Finmap.ext_lookup
  intro k
  rw [lookup_setProps, lookup_setProps, optOr_self_absorb]

/-- The UNWIND-MERGE-SET upsert pattern shared by node and relationship
ingestion: when some stored element matches, every match is updated in
place; otherwise a freshly created element is appended. -/
def merge_upsert {α : Type} (match_ : α → Bool) (upd : α → α) (new : α)
    (s : List α) : List α :=
  if s.any match_ then s.map (fun x => if match_ x then upd x else x)
  else s ++ [new]

/-- Sequential upsert of a list of rows, each row guarded (a relationship
row with a missing endpoint produces nothing). -/
def upsert_fold {α ρ : Type} (guard : ρ → Bool) (rmatch : ρ → α → Bool)
    (rupd : ρ → α → α) (rnew : ρ → α) (s : List α) (rows : List ρ) :
    List α :=
  rows.foldl
    (fun acc row =>
      if guard row then
        merge_upsert (rmatch row) (rupd row) (rnew row) acc
      else acc) s

theorem map_eq_self_of {α : Type} (f : α → α) (l : List α)
    (h : ∀ x ∈ l, f x = x) : l.map f = l := by
  induction l with
  | nil => rfl
  | cons a t ih =>
    rw [List.map_cons, h a (List.mem_cons_self a t),
      ih (fun x hx => h x (List.mem_cons_of_mem a hx))]

theorem merge_upsert_saturated {α : Type} (match_ : α → Bool) (upd : α → α)
    (new : α) (s : List α) (hupd : ∀ x, upd (upd x) = upd x)
    (hnew : upd new = new) :
    ∀ x ∈ merge_upsert match_ upd new s, match_ x = true → upd x = x := by
  intro x hx hm
  unfold merge_upsert at hx
  by_cases hany : s.any match_ = true
  · rw [if_pos hany] at hx
    rcases List.mem_map.mp hx with ⟨y, _, hy⟩
    by_cases hmy : match_ y = true
    · rw [if_pos hmy] at hy
      rw [← hy, hupd]
    · rw [if_neg hmy] at hy
      subst hy
      exact absurd hm hmy
  · rw [if_neg hany] at hx
    rcases List.mem_append.mp hx with hxs | hxn
    · exfalso
      apply hany
      rw [List.any_eq_true]
      exact ⟨x, hxs, hm⟩
    · rw [List.mem_singleton.mp hxn]
      exact hnew

theorem merge_upsert_any {α : Type} (match_ : α → Bool) (upd : α → α)
    (new : α) (s : List α) (hpres : ∀ x, match_ (upd x) = match_ x)
    (hnewm : match_ new = true) :
    (merge_upsert match_ upd new s).any match_ = true := by
  unfold merge_upsert
  by_cases hany : s.any match_ = true
  · rw [if_pos hany, List.any_eq_true]
    rcases List.any_eq_true.mp hany with ⟨y, hy, hmy⟩
    refine ⟨if match_ y then upd y else y, List.mem_map_of_mem _ hy, ?_⟩
    rw [if_pos hmy, hpres]
    exact hmy
  · rw [if_neg hany, List.any_eq_true]
    exact ⟨new, List.mem_append_right _ (List.mem_singleton_self new), hnewm⟩

theorem merge_upsert_filter_frame {α : Type} (p match_ : α → Bool)
    (upd : α → α) (new : α) (s : List α)
    (hp_upd : ∀ x, p (upd x) = p x)
    (hexcl : ∀ x, p x = true → match_ x = false)
    (hpnew : p new = false) :
    (merge_upsert match_ upd new s).filter p = s.filter p := by
  unfold merge_upsert
  by_cases hany : s.any match_ = true
  · rw [if_pos hany, filter_map_comm]
    have hfc : s.filter (fun x => p (if match_ x then upd x else x)) =
        s.filter p := by
      apply List.filter_congr
      intro x _
      by_cases hmx : match_ x = true
      · rw [if_pos hmx, hp_upd]
      · rw [if_neg hmx]
    rw [hfc]
    apply map_eq_self_of
    intro x hx
    have hpx := List.of_mem_filter hx
    rw [if_neg ?_]
    intro hmx
    rw [hexcl x hpx] at hmx
    exact Bool.false_ne_true hmx
  · rw [if_neg hany, List.filter_append]
    have : List.filter p [new] = [] := by
      simp [List.filter, hpnew]
    rw [this, List.append_nil]

theorem merge_upsert_eq_self {α : Type} (match_ : α → Bool) (upd : α → α)
    (new : α) (s : List α) (hany : s.any match_ = true)
    (hfix : ∀ x ∈ s, match_ x = true → upd x = x) :
    merge_upsert match_ upd new s = s := by
  unfold merge_upsert
  rw [if_pos hany]
  apply map_eq_self_of
  intro x hx
  by_cases hmx : match_ x = true
  · rw [if_pos hmx]
    exact hfix x hx hmx
  · rw [if_neg hmx]

theorem merge_upsert_length_of_any {α : Type} (match_ : α → Bool)
    (upd : α → α) (new : α) (s : List α) (hany : s.any match_ = true) :
    (merge_upsert match_ upd new s).length = s.length := by
  unfold merge_upsert
  rw [if_pos hany, List.length_map]

theorem any_iff_filter_ne_nil {α : Type} (p : α → Bool) (l : List α) :
    l.any p = true ↔ l.filter p ≠ [] := by
  rw [List.any_eq_true]
  constructor
  · rintro ⟨x, hx, hpx⟩ hnil
    have := List.mem_filter.mpr ⟨hx, hpx⟩
    rw [hnil] at this
    exact List.not_mem_nil x this
  · intro hne
    rcases List.exists_mem_of_ne_nil _ hne with ⟨x, hx⟩
    exact ⟨x, (List.mem_filter.mp hx).1, (List.mem_filter.mp hx).2⟩

section UpsertFold

variable {α ρ K : Type}
variable (guard : ρ → Bool) (rmatch : ρ → α → Bool) (rupd : ρ → α → α)
variable (rnew : ρ → α) (key : ρ → K)

theorem upsert_fold_filter_frame
    (Hpres : ∀ r r0 x, rmatch r0 (rupd r x) = rmatch r0 x)
    (Hdisj : ∀ r r0 x, key r ≠ key r0 → rmatch r x = true →
      rmatch r0 x = false)
    (Hnewo : ∀ r r0, key r0 ≠ key r → rmatch r0 (rnew r) = false) :
    ∀ (rows : List ρ) (s : List α) (r0 : ρ),
      (∀ r ∈ rows, key r ≠ key r0) →
      (upsert_fold guard rmatch rupd rnew s rows).filter (rmatch r0) =
        s.filter (rmatch r0) := by
  intro rows
  induction rows with
  | nil => intro s r0 _; rfl
  | cons r rest ih =>
    intro s r0 h
    have hr0 : key r ≠ key r0 := h r (List.mem_cons_self r rest)
    have hrest : ∀ r2 ∈ rest, key r2 ≠ key r0 :=
      fun r2 hr2 => h r2 (List.mem_cons_of_mem r hr2)
    have hstep : upsert_fold guard rmatch rupd rnew s (r :: rest) =
        upsert_fold guard rmatch rupd rnew
          (if guard r then merge_upsert (rmatch r) (rupd r) (rnew r) s
           else s) rest := rfl
    rw [hstep, ih _ r0 hrest]
    by_cases hg : guard r = true
    · rw [if_pos hg]
      exact merge_upsert_filter_frame (rmatch r0) (rmatch r) (rupd r)
        (rnew r) s (fun x => Hpres r r0 x)
        (fun x hx => Hdisj r0 r x (Ne.symm hr0) hx)
        (Hnewo r r0 (Ne.symm hr0))
    · rw [if_neg hg]

theorem upsert_fold_idem
    (Hpres : ∀ r r0 x, rmatch r0 (rupd r x) = rmatch r0 x)
    (Hdisj : ∀ r r0 x, key r ≠ key r0 → rmatch r x = true →
      rmatch r0 x = false)
    (Hnewo : ∀ r r0, key r0 ≠ key r → rmatch r0 (rnew r) = false)
    (Hnewm : ∀ r, rmatch r (rnew r) = true)
    (Hidem : ∀ r x, rupd r (rupd r x) = rupd r x)
    (Hnewfix : ∀ r, rupd r (rnew r) = rnew r) :
    ∀ (rows : List ρ) (s : List α),
      rows.Pairwise (fun a b => key a ≠ key b) →
      upsert_fold guard rmatch rupd rnew
          (upsert_fold guard rmatch rupd rnew s rows) rows =
        upsert_fold guard rmatch rupd rnew s rows := by
  intro rows
  induction rows with
  | nil => intro s _; rfl
  | cons r rest ih =>
    intro s hp
    rcases List.pairwise_cons.mp hp with ⟨hhead, hrest⟩
    have hstep : ∀ t : List α,
        upsert_fold guard rmatch rupd rnew t (r :: rest) =
          upsert_fold guard rmatch rupd rnew
            (if guard r then merge_upsert (rmatch r) (rupd r) (rnew r) t
             else t) rest := fun t => rfl
    rw [hstep, hstep]
    have hAA :
        (if guard r then
          merge_upsert (rmatch r) (rupd r) (rnew r)
            (upsert_fold guard rmatch rupd rnew
              (if guard r then merge_upsert (rmatch r) (rupd r) (rnew r) s
               else s) rest)
         else
          upsert_fold guard rmatch rupd rnew
            (if guard r then merge_upsert (rmatch r) (rupd r) (rnew r) s
             else s) rest) =
        upsert_fold guard rmatch rupd rnew
          (if guard r then merge_upsert (rmatch r) (rupd r) (rnew r) s
           else s) rest := by
      by_cases hg : guard r = true
      · rw [if_pos hg, if_pos hg]
        have h_s1any :
            (merge_upsert (rmatch r) (rupd r) (rnew r) s).any (rmatch r) =
              true :=
          merge_upsert_any (rmatch r) (rupd r) (rnew r) s
            (fun x => Hpres r r x) (Hnewm r)
        have hframe :
            (upsert_fold guard rmatch rupd rnew
                (merge_upsert (rmatch r) (rupd r) (rnew r) s) rest).filter
              (rmatch r) =
            (merge_upsert (rmatch r) (rupd r) (rnew r) s).filter
              (rmatch r) :=
          upsert_fold_filter_frame guard rmatch rupd rnew key Hpres Hdisj
            Hnewo rest _ r (fun r2 hr2 => Ne.symm (hhead r2 hr2))
        have hany :
            (upsert_fold guard rmatch rupd rnew
              (merge_upsert (rmatch r) (rupd r) (rnew r) s) rest).any
              (rmatch r) = true := by
          rw [any_iff_filter_ne_nil] at h_s1any ⊢
          rw [hframe]
          exact h_s1any
        have hfix : ∀ x ∈ upsert_fold guard rmatch rupd rnew
            (merge_upsert (rmatch r) (rupd r) (rnew r) s) rest,
            rmatch r x = true → rupd r x = x := by
          intro x hxA hmx
          have hxf := List.mem_filter.mpr ⟨hxA, hmx⟩
          rw [hframe] at hxf
          exact merge_upsert_saturated (rmatch r) (rupd r) (rnew r) s
            (Hidem r) (Hnewfix r) x (List.mem_filter.mp hxf).1 hmx
        exact merge_upsert_eq_self _ _ _ _ hany hfix
      · rw [if_neg hg, if_neg hg]
    rw [hAA]
    exact ih _ hrest

end UpsertFold

/-- Order-preserving deduplication with an accumulator of seen keys:
the key order of a Python dictionary built by insertion. -/
def firstDedupAux {K : Type} [DecidableEq K] (seen : List K) :
    List K → List K
  | [] => []
  | k :: rest =>
    if k ∈ seen then firstDedupAux seen rest
    else k :: firstDedupAux (k :: seen) rest

def firstDedup {K : Type} [DecidableEq K] (l : List K) : List K :=
  firstDedupAux [] l

theorem mem_firstDedupAux {K : Type} [DecidableEq K] (a : K) :
    ∀ (l seen : List K), a ∈ firstDedupAux seen l ↔ a ∈ l ∧ a ∉ seen := by
  intro l
  induction l with
  | nil => intro seen; simp [firstDedupAux]
  | cons k rest ih =>
    intro seen
    by_cases hk : k ∈ seen
    · rw [firstDedupAux, if_pos hk, ih]
      constructor
      · rintro ⟨ha, hna⟩
        exact ⟨List.mem_cons_of_mem k ha, hna⟩
      · rintro ⟨ha, hna⟩
        rcases List.mem_cons.mp ha with h | h
        · subst h; exact absurd hk hna
        · exact ⟨h, hna⟩
    · rw [firstDedupAux, if_neg hk]
      by_cases hak : a = k
      · subst hak
        simp [hk]
      · rw [List.mem_cons, ih]
        constructor
        · rintro (h | ⟨ha, hna⟩)
          · exact absurd h hak
          · refine ⟨List.mem_cons_of_mem k ha, ?_⟩
            intro hs
            exact hna (List.mem_cons_of_mem k hs)
        · rintro ⟨ha, hna⟩
          rcases List.mem_cons.mp ha with h | h
          · exact absurd h hak
          · refine Or.inr ⟨h, ?_⟩
            intro hs
            rcases List.mem_cons.mp hs with h2 | h2
            · exact hak h2
            · exact hna h2

theorem nodup_firstDedupAux {K : Type} [DecidableEq K] :
    ∀ (l seen : List K), (firstDedupAux seen l).Nodup := by
  intro l
  induction l with
  | nil => intro seen; simp [firstDedupAux]
  | cons k rest ih =>
    intro seen
    by_cases hk : k ∈ seen
    · rw [firstDedupAux, if_pos hk]
      exact ih seen
    · rw [firstDedupAux, if_neg hk]
      refine List.nodup_cons.mpr ⟨?_, ih (k :: seen)⟩
      intro hmem
      exact ((mem_firstDedupAux k rest (k :: seen)).mp hmem).2
        (List.mem_cons_self k seen)

theorem mem_firstDedup {K : Type} [DecidableEq K] (a : K) (l : List K) :
    a ∈ firstDedup l ↔ a ∈ l := by
  rw [firstDedup, mem_firstDedupAux]
  simp

theorem nodup_firstDedup {K : Type} [DecidableEq K] (l : List K) :
    (firstDedup l).Nodup :=
  nodup_firstDedupAux l []

/-- The grouping step of _ingest_nodes_batch and
_ingest_relationships_fallback: a dictionary of lists keyed by key,
iterated in first-seen key order, flattened back to a row sequence. -/
def regroup {ρ K : Type} [DecidableEq K] (key : ρ → K) (rows : List ρ) :
    List ρ :=
  (firstDedup (rows.map key)).flatMap
    (fun k => rows.filter (fun r => key r = k))

theorem flatMap_congr_mem {α β : Type} (f g : α → List β) :
    ∀ l : List α, (∀ a ∈ l, f a = g a) → l.flatMap f = l.flatMap g := by
  intro l
  induction l with
  | nil => intro _; rfl
  | cons a t ih =>
    intro h
    rw [List.flatMap_cons, List.flatMap_cons, h a (List.mem_cons_self a t),
      ih (fun x hx => h x (List.mem_cons_of_mem a hx))]

theorem flatMap_filter_perm {ρ K : Type} [DecidableEq K] (key : ρ → K) :
    ∀ (types : List K) (rows : List ρ), types.Nodup →
      (∀ r ∈ rows, key r ∈ types) →
      List.Perm
        (types.flatMap (fun k => rows.filter (fun r => decide (key r = k))))
        rows := by
  intro types
  induction types with
  | nil =>
    intro rows _ hcov
    cases rows with
    | nil => simp
    | cons r rest =>
      exact absurd (hcov r (List.mem_cons_self r rest)) (List.not_mem_nil _)
  | cons t rest ih =>
    intro rows hnd hcov
    rcases List.nodup_cons.mp hnd with ⟨htr, hndr⟩
    rw [List.flatMap_cons]
    have hgroups :
        rest.flatMap (fun k => rows.filter (fun r => decide (key r = k))) =
        rest.flatMap (fun k =>
          (rows.filter (fun r => !(decide (key r = t)))).filter
            (fun r => decide (key r = k))) := by
      apply flatMap_congr_mem
      intro k hk
      rw [List.filter_filter]
      apply List.filter_congr
      intro r _
      by_cases hrk : key r = k
      · have hkt : ¬ k = t := by
          intro h
          rw [h] at hk
          exact htr hk
        have hrt : ¬ key r = t := by
          rw [hrk]
          exact hkt
        simp [hrk, hrt, hkt]
      · simp [hrk]
    rw [hgroups]
    have hsub : List.Perm
        (rest.flatMap (fun k =>
          (rows.filter (fun r => !(decide (key r = t)))).filter
            (fun r => decide (key r = k))))
        (rows.filter (fun r => !(decide (key r = t)))) := by
      apply ih _ hndr
      intro r hr
      have hmem := (List.mem_filter.mp hr).1
      have hne := (List.mem_filter.mp hr).2
      rcases List.mem_cons.mp (hcov r hmem) with h | h
      · rw [h] at hne
        simp at hne
      · exact h
    have hperm := List.Perm.append_left
      (rows.filter (fun r => decide (key r = t))) hsub
    exact hperm.trans
      (List.filter_append_perm (fun r => decide (key r = t)) rows)

theorem regroup_perm {ρ K : Type} [DecidableEq K] (key : ρ → K)
    (rows : List ρ) : List.Perm (regroup key rows) rows :=
  flatMap_filter_perm key (firstDedup (rows.map key)) rows
    (nodup_firstDedup _)
    (fun _r hr => (mem_firstDedup _ _).mpr (List.mem_map_of_mem key hr))

/-- The chunking of ingest_chunker_output: batches of batch_size rows,
with structural fuel. -/
def chunksAux {α : Type} (n : Nat) : Nat → List α → List (List α)
  | 0, _ => []
  | _, [] => []
  | fuel + 1, x :: xs => (x :: xs.take (n - 1)) :: chunksAux n fuel (xs.drop (n - 1))

def chunksOf {α : Type} (n : Nat) (l : List α) : List (List α) :=
  chunksAux n l.length l

theorem chunksAux_flatten {α : Type} (n : Nat) :
    ∀ (fuel : Nat) (l : List α), l.length ≤ fuel →
      (chunksAux n fuel l).flatten = l := by
  intro fuel
  induction fuel with
  | zero =>
    intro l hl
    cases l with
    | nil => rfl
    | cons x xs => simp at hl
  | succ fuel ih =>
    intro l hl
    cases l with
    | nil => rfl
    | cons x xs =>
      rw [chunksAux, List.flatten_cons]
      rw [ih (xs.drop (n - 1)) ?_]
      · rw [List.cons_append, List.take_append_drop]
      · have h1 : (xs.drop (n - 1)).length ≤ xs.length := by
          rw [List.length_drop]; omega
        have h2 : xs.length ≤ fuel := by
          rw [List.length_cons] at hl; omega
        omega

theorem chunksOf_flatten {α : Type} (n : Nat) (l : List α) :
    (chunksOf n l).flatten = l :=
  chunksAux_flatten n l.length l (Nat.le_refl _)

/-- A node row of a fragment as prepared by _prepare_node_for_cypher:
its declared label, its id, and the full property dictionary. -/
structure NodeRow where
  label : String
  id : String
  props : List (String × AttrVal)
deriving DecidableEq

/-- A stored graph node of the ingestion model. -/
structure StoreNode where
  id : String
  label : String
  props : AttrMap
deriving DecidableEq

/-- graph_ingestion._get_node_label: the label map sends each known label
to itself and everything else to Node. -/
def validNodeLabels : List String :=
  [ "File", "Directory", "Class", "Interface", "Method", "Function",
    "Variable", "Parameter", "Import", "Export" ]

def get_node_label (label : String) : String :=
  if label ∈ validNodeLabels then label else "Node"

/-- The key of the node MERGE: target label and id. -/
def nodeRowKey (r : NodeRow) : String × String :=
  (get_node_label r.label, r.id)

def nodeMatch (r : NodeRow) (n : StoreNode) : Bool :=
  n.label = get_node_label r.label && n.id = r.id

def nodeUpd (r : NodeRow) (n : StoreNode) : StoreNode :=
  { n with props := setProps n.props r.props }

/-- MERGE creation: a node with the target label, carrying the id
property, then SET n += row. -/
def nodeNew (r : NodeRow) : StoreNode :=
  { id := r.id, label := get_node_label r.label,
    props := setProps ((∅ : AttrMap).insert "id" (AttrVal.str r.id)) r.props }

/-- One UNWIND-MERGE-SET query of _ingest_nodes_batch over a row
sequence. -/
def ingest_node_rows (s : List StoreNode) (rows : List NodeRow) :
    List StoreNode :=
  upsert_fold (fun _ => true) nodeMatch nodeUpd nodeNew s rows

/-- graph_ingestion._ingest_nodes_batch (lines 149-187): group the batch
by target label, then run one bulk MERGE per label group. -/
def ingest_nodes_batch (s : List StoreNode) (batch : List NodeRow) :
    List StoreNode :=
  ingest_node_rows s (regroup (fun r => get_node_label r.label) batch)

/-- A relationship row of a fragment. -/
structure RelRow where
  source_id : String
  target_id : String
  typ : String
  properties : List (String × AttrVal)
deriving DecidableEq

/-- A stored relationship of the ingestion model, keyed by source id,
type and target id per the fallback MERGE. -/
structure StoreRel where
  source_id : String
  typ : String
  target_id : String
  props : AttrMap
deriving DecidableEq

def relKey (r : RelRow) : String × String × String :=
  (r.source_id, r.typ, r.target_id)

def relMatch (r : RelRow) (e : StoreRel) : Bool :=
  e.source_id = r.source_id && e.typ = r.typ && e.target_id = r.target_id

def relUpd (r : RelRow) (e : StoreRel) : StoreRel :=
  { e with props := setProps e.props r.properties }

def relNew (r : RelRow) : StoreRel :=
  { source_id := r.source_id, typ := r.typ, target_id := r.target_id,
    props := setProps (∅ : AttrMap) r.properties }

/-- The MATCH guard of the fallback query: both endpoints must exist; a
row with a missing endpoint is dropped. -/
def relGuard (nodes : List StoreNode) (r : RelRow) : Bool :=
  nodes.any (fun n => n.id = r.source_id) &&
    nodes.any (fun n => n.id = r.target_id)

def ingest_rel_rows (nodes : List StoreNode) (rels : List StoreRel)
    (rows : List RelRow) : List StoreRel :=
  upsert_fold (relGuard nodes) relMatch relUpd relNew rels rows

/-- graph_ingestion._ingest_relationships_fallback (lines 233-271): group
the batch by relationship type, then run one bulk MERGE per type
group. -/
def ingest_relationships_fallback (nodes : List StoreNode)
    (rels : List StoreRel) (batch : List RelRow) : List StoreRel :=
  ingest_rel_rows nodes rels (regroup (fun r => r.typ) batch)

/-- A canonical fragment, as far as ingestion observes it. -/
structure Fragment where
  nodes : List NodeRow
  relationships : List RelRow
deriving DecidableEq

/-- The graph store state. -/
structure Store where
  nodes : List StoreNode
  rels : List StoreRel
deriving DecidableEq

/-- graph_ingestion.ingest_chunker_output (lines 106-147): split nodes
into batches of batch_size and upsert them, then split relationships into
batches and upsert them against the updated node set. -/
def ingest_chunker_output (batch_size : Nat) (s : Store) (frag : Fragment) :
    Store :=
  let nodes2 := (chunksOf batch_size frag.nodes).foldl ingest_nodes_batch
    s.nodes
  { nodes := nodes2,
    rels := (chunksOf batch_size frag.relationships).foldl
      (ingest_relationships_fallback nodes2) s.rels }

theorem foldl_batched_upsert {α ρ K : Type} [DecidableEq K]
    (guard : ρ → Bool) (rmatch : ρ → α → Bool) (rupd : ρ → α → α)
    (rnew : ρ → α) (gkey : ρ → K) :
    ∀ (batches : List (List ρ)) (s : List α),
      batches.foldl
        (fun acc b => upsert_fold guard rmatch rupd rnew acc
          (regroup gkey b)) s =
      upsert_fold guard rmatch rupd rnew s
        (batches.flatMap (fun b => regroup gkey b)) := by
  intro batches
  induction batches with
  | nil => intro s; rfl
  | cons b bs ih =>
    intro s
    rw [List.foldl_cons, ih, List.flatMap_cons]
    unfold upsert_fold
    rw [List.foldl_append]

theorem flatMap_regroup_perm {ρ K : Type} [DecidableEq K] (gkey : ρ → K) :
    ∀ batches : List (List ρ),
      List.Perm (batches.flatMap (fun b => regroup gkey b))
        batches.flatten := by
  intro batches
  induction batches with
  | nil => simp
  | cons b bs ih =>
    rw [List.flatMap_cons, List.flatten_cons]
    exact List.Perm.append (regroup_perm gkey b) ih

/-- The node rows of a fragment in processed order: batched, each batch
grouped by label. -/
def processedNodeRows (batch_size : Nat) (frag : Fragment) : List NodeRow :=
  (chunksOf batch_size frag.nodes).flatMap
    (fun b => regroup (fun r => get_node_label r.label) b)

/-- The relationship rows of a fragment in processed order: batched, each
batch grouped by type. -/
def processedRelRows (batch_size : Nat) (frag : Fragment) : List RelRow :=
  (chunksOf batch_size frag.relationships).flatMap
    (fun b => regroup (fun r => r.typ) b)

theorem processedNodeRows_perm (batch_size : Nat) (frag : Fragment) :
    List.Perm (processedNodeRows batch_size frag) frag.nodes := by
  have h := flatMap_regroup_perm (fun r : NodeRow => get_node_label r.label)
    (chunksOf batch_size frag.nodes)
  rw [chunksOf_flatten] at h
  exact h

theorem processedRelRows_perm (batch_size : Nat) (frag : Fragment) :
    List.Perm (processedRelRows batch_size frag) frag.relationships := by
  have h := flatMap_regroup_perm (fun r : RelRow => r.typ)
    (chunksOf batch_size frag.relationships)
  rw [chunksOf_flatten] at h
  exact h

theorem ingest_nodes_as_fold (batch_size : Nat) (frag : Fragment)
    (s : List StoreNode) :
    (chunksOf batch_size frag.nodes).foldl ingest_nodes_batch s =
      upsert_fold (fun _ => true) nodeMatch nodeUpd nodeNew s
        (processedNodeRows batch_size frag) :=
  foldl_batched_upsert _ _ _ _ _ _ s

theorem ingest_rels_as_fold (batch_size : Nat) (frag : Fragment)
    (nodes : List StoreNode) (rels : List StoreRel) :
    (chunksOf batch_size frag.relationships).foldl
        (ingest_relationships_fallback nodes) rels =
      upsert_fold (relGuard nodes) relMatch relUpd relNew rels
        (processedRelRows batch_size frag) :=
  foldl_batched_upsert _ _ _ _ _ _ rels

theorem nodeMatch_key_eq (r r0 : NodeRow) (x : StoreNode)
    (hm : nodeMatch r x = true) (hm0 : nodeMatch r0 x = true) :
    nodeRowKey r = nodeRowKey r0 := by
  simp only [nodeMatch, Bool.and_eq_true, decide_eq_true_eq] at hm hm0
  unfold nodeRowKey
  rw [Prod.mk.injEq]
  exact ⟨hm.1.symm.trans hm0.1, hm.2.symm.trans hm0.2⟩

theorem nodeMatch_disj (r r0 : NodeRow) (x : StoreNode)
    (hk : nodeRowKey r ≠ nodeRowKey r0) (hm : nodeMatch r x = true) :
    nodeMatch r0 x = false := by
  cases h0 : nodeMatch r0 x with
  | false => rfl
  | true => exact absurd (nodeMatch_key_eq r r0 x hm h0) hk

theorem nodeMatch_new (r : NodeRow) : nodeMatch r (nodeNew r) = true := by
  simp [nodeMatch, nodeNew]

theorem nodeMatch_new_other (r r0 : NodeRow)
    (hk : nodeRowKey r0 ≠ nodeRowKey r) :
    nodeMatch r0 (nodeNew r) = false := by
  apply nodeMatch_disj r r0
  · exact Ne.symm hk
  · exact nodeMatch_new r

theorem nodeUpd_idem (r : NodeRow) (x : StoreNode) :
    nodeUpd r (nodeUpd r x) = nodeUpd r x := by
  simp [nodeUpd, setProps_setProps]

theorem nodeUpd_new_fix (r : NodeRow) : nodeUpd r (nodeNew r) = nodeNew r := by
  simp [nodeUpd, nodeNew, setProps_setProps]

theorem relMatch_key_eq (r r0 : RelRow) (x : StoreRel)
    (hm : relMatch r x = true) (hm0 : relMatch r0 x = true) :
    relKey r = relKey r0 := by
  simp only [relMatch, Bool.and_eq_true, decide_eq_true_eq] at hm hm0
  unfold relKey
  rw [Prod.mk.injEq, Prod.mk.injEq]
  exact ⟨hm.1.1.symm.trans hm0.1.1,
    hm.1.2.symm.trans hm0.1.2, hm.2.symm.trans hm0.2⟩

theorem relMatch_disj (r r0 : RelRow) (x : StoreRel)
    (hk : relKey r ≠ relKey r0) (hm : relMatch r x = true) :
    relMatch r0 x = false := by
  cases h0 : relMatch r0 x with
  | false => rfl
  | true => exact absurd (relMatch_key_eq r r0 x hm h0) hk

theorem relMatch_new (r : RelRow) : relMatch r (relNew r) = true := by
  simp [relMatch, relNew]

theorem relMatch_new_other (r r0 : RelRow) (hk : relKey r0 ≠ relKey r) :
    relMatch r0 (relNew r) = false := by
  apply relMatch_disj r r0
  · exact Ne.symm hk
  · exact relMatch_new r

theorem relUpd_idem (r : RelRow) (x : StoreRel) :
    relUpd r (relUpd r x) = relUpd r x := by
  simp [relUpd, setProps_setProps]

theorem relUpd_new_fix (r : RelRow) : relUpd r (relNew r) = relNew r := by
  simp [relUpd, relNew, setProps_setProps]

theorem ingest_chunker_output_as_folds (batch_size : Nat) (frag : Fragment)
    (st : Store) :
    ingest_chunker_output batch_size st frag =
      { nodes := upsert_fold (fun _ => true) nodeMatch nodeUpd nodeNew
          st.nodes (processedNodeRows batch_size frag),
        rels := upsert_fold
          (relGuard (upsert_fold (fun _ => true) nodeMatch nodeUpd nodeNew
            st.nodes (processedNodeRows batch_size frag)))
          relMatch relUpd relNew st.rels
          (processedRelRows batch_size frag) } := by
  simp only [ingest_chunker_output]
  rw [ingest_nodes_as_fold, ingest_rels_as_fold]

/-- Claim C3. Ingesting the same fragment twice leaves the store
unchanged relative to a single ingestion — node rows keyed by label and
id, relationship rows keyed by source, type and target, per the
uniqueness invariant of the data model — and a node upsert whose key
already exists in the store updates the matching node in place and never
creates a duplicate: the node count is unchanged. -/
theorem c3_repeat_ingest_is_idempotent_and_never_duplicates
    (batch_size : Nat) (s : Store) (frag : Fragment)
    (ns : List StoreNode) (row : NodeRow)
    (hn : frag.nodes.Pairwise (fun a b => nodeRowKey a ≠ nodeRowKey b))
    (hr : frag.relationships.Pairwise (fun a b => relKey a ≠ relKey b))
    (hany : ns.any (nodeMatch row) = true) :
    ingest_chunker_output batch_size
        (ingest_chunker_output batch_size s frag) frag =
      ingest_chunker_output batch_size s frag ∧
    (merge_upsert (nodeMatch row) (nodeUpd row) (nodeNew row) ns).length =
      ns.length := by
  constructor
  · have hsymN : Symmetric
        (fun a b : NodeRow => nodeRowKey a ≠ nodeRowKey b) :=
      fun a b h => Ne.symm h
    have hsymR : Symmetric (fun a b : RelRow => relKey a ≠ relKey b) :=
      fun a b h => Ne.symm h
    have hnP : (processedNodeRows batch_size frag).Pairwise
        (fun a b => nodeRowKey a ≠ nodeRowKey b) :=
      ((processedNodeRows_perm batch_size frag).pairwise_iff
        (fun h => Ne.symm h)).mpr hn
    have hrP : (processedRelRows batch_size frag).Pairwise
        (fun a b => relKey a ≠ relKey b) :=
      ((processedRelRows_perm batch_size frag).pairwise_iff
        (fun h => Ne.symm h)).mpr hr
    have hNidem := upsert_fold_idem (fun _ : NodeRow => true) nodeMatch
      nodeUpd nodeNew nodeRowKey (fun r r0 x => rfl) nodeMatch_disj
      nodeMatch_new_other nodeMatch_new nodeUpd_idem nodeUpd_new_fix
      (processedNodeRows batch_size frag) s.nodes hnP
    have hRidem := upsert_fold_idem
      (relGuard (upsert_fold (fun _ => true) nodeMatch nodeUpd nodeNew
        s.nodes (processedNodeRows batch_size frag)))
      relMatch relUpd relNew relKey (fun r r0 x => rfl) relMatch_disj
      relMatch_new_other relMatch_new relUpd_idem relUpd_new_fix
      (processedRelRows batch_size frag) s.rels hrP
    rw [ingest_chunker_output_as_folds batch_size frag s,
      ingest_chunker_output_as_folds]
    simp only [hNidem, hRidem]
  · exact merge_upsert_length_of_any (nodeMatch row) (nodeUpd row)
      (nodeNew row) ns hany

/-- Concrete store for the C3 witness: one already-stored File node. -/
def c3Store : Store :=
  { nodes := [ { id := "f1", label := "File",
                 props := (∅ : AttrMap).insert "id" (AttrVal.str "f1") } ],
    rels := [] }

/-- Concrete fragment for the C3 witness: a File, a Class, and the
CONTAINS relationship between them. -/
def c3Frag : Fragment :=
  { nodes :=
      [ { label := "File", id := "f1",
          props := [("id", AttrVal.str "f1"), ("path", AttrVal.str "a.py")] },
        { label := "Class", id := "c1",
          props := [("id", AttrVal.str "c1"),
                    ("name", AttrVal.str "PaymentService")] } ],
    relationships :=
      [ { source_id := "f1", target_id := "c1", typ := "CONTAINS",
          properties := [] } ] }

/-- Concrete node row for the duplicate-free part of the C3 witness. -/
def c3Row : NodeRow :=
  { label := "File", id := "f1", props := [("id", AttrVal.str "f1")] }

/-- Witness for claim C3 at a concrete store and fragment. -/
theorem c3_repeat_ingest_is_idempotent_and_never_duplicates_witness :
    ingest_chunker_output 1000
        (ingest_chunker_output 1000 c3Store c3Frag) c3Frag =
      ingest_chunker_output 1000 c3Store c3Frag ∧
    (merge_upsert (nodeMatch c3Row) (nodeUpd c3Row) (nodeNew c3Row)
      c3Store.nodes).length = c3Store.nodes.length :=
  c3_repeat_ingest_is_idempotent_and_never_duplicates 1000 c3Store c3Frag
    c3Store.nodes c3Row (by decide) (by decide) (by decide)
